import Mathlib

/-!
Shallow embedding of the wiki-page mutation pipeline of `models/wiki_page.py`
and the schema property converter of `schema.py`.

Modelling conventions:
* Python strings are Lean `String`s; character-level scanning is done on
  `String.data` with structural recursion so that concrete runs reduce.
* Python floats (related-link scores) are modelled as rationals (`Rat`).
* The datastore is an explicit `Store` value threaded through every
  operation; `ndb.put_multi` batches are applied sequentially (each fetch
  reads the store as mutated so far, matching the in-context entity cache
  that makes repeated fetches of one title return the same object).
* Functions that can raise return `Except WikiErr`; redirect following can
  loop forever, so everything on that path additionally returns `Option`
  (`none` = the computation never terminates, witnessed by fuel exhaustion
  at every fuel).
* External collaborators that are not part of this repository (markdown
  and metadata parsing, the ACL capability, `bzrlib.Merge3`, numeric and
  regex validation of scalar schema values, the schema data index) are
  fields of an explicit `Env` record.
-/

namespace Wiki

/-- Lexicographic comparison of char lists by code point (Python string order). -/
def charsLe : List Char → List Char → Bool
  | [], _ => true
  | _ :: _, [] => false
  | a :: as, b :: bs => if a.val < b.val then true else if b.val < a.val then false else charsLe as bs

/-- Python string comparison. -/
def strLe (a b : String) : Bool := charsLe a.data b.data

/-- Python `list.sort()` on strings: stable sort in code-point order.  Stable
sorts with a total preorder have a unique result, so `insertionSort` agrees
with Python Timsort. -/
def sortStrings (l : List String) : List String :=
  List.insertionSort (fun a b => strLe a b = true) l

/-- Substring test on char lists. -/
def subList : List Char → List Char → Bool
  | _, [] => true
  | [], _ :: _ => false
  | a :: as, pat => (List.isPrefixOf pat (a :: as)) || subList as pat

/-- Substring test on strings (used for conflict markers and `[__]` log lines). -/
def containsSub (s pat : String) : Bool := subList s.data pat.data

/-- Python `content.replace('\r\n', '\n')`: one left-to-right pass over the
text, replacing each non-overlapping occurrence (wiki_page.py line 152). -/
def crlfChars : List Char → List Char
  | '\r' :: '\n' :: rest => '\n' :: crlfChars rest
  | c :: rest => c :: crlfChars rest
  | [] => []

/-- CRLF normalisation at the `String` level. -/
def crlfStr (s : String) : String := String.mk (crlfChars s.data)

/-- Does the text still contain a CR LF pair? -/
def containsCrlf : List Char → Bool
  | '\r' :: '\n' :: _ => true
  | _ :: rest => containsCrlf rest
  | [] => false

/-- Python `acl.split(',') if acl else []` (wiki_page.py lines 276-279). -/
def splitCommaAux : List Char → List Char → List String
  | acc, [] => [String.mk acc.reverse]
  | acc, ',' :: rest => String.mk acc.reverse :: splitCommaAux [] rest
  | acc, c :: rest => splitCommaAux (c :: acc) rest

/-- Comma split of an ACL specifier; the empty specifier yields no entries. -/
def splitAcl (s : String) : List String :=
  if s = "" then [] else splitCommaAux [] s.data

/-- Python `str.lower()` restricted to the ASCII tokens the Boolean
validation compares against. -/
def strToLower (s : String) : String := String.mk (s.data.map Char.toLower)

/-- Association-list lookup keyed by strings (Python dict read). -/
def lookupStr {β : Type} : List (String × β) → String → Option β
  | [], _ => none
  | (k, v) :: rest, key => if k = key then some v else lookupStr rest key

/-- Python dict assignment: replace the entry if the key is present, else append. -/
def assocSet {β : Type} : List (String × β) → String → β → List (String × β)
  | [], k, v => [(k, v)]
  | (k0, v0) :: rest, k, v => if k0 = k then (k, v) :: rest else (k0, v0) :: assocSet rest k v

/-- Python `del d[key]`. -/
def assocDel {β : Type} (m : List (String × β)) (k : String) : List (String × β) :=
  m.filter (fun e => e.1 ≠ k)

/-- A relation-keyed link map (the `inlinks` / `outlinks` JSON dicts). -/
abbrev LinkMap := List (String × List String)

/-- WikiPage._add_inout_links: append the titles under `rel` and sort the list. -/
def addInoutLinks (links : LinkMap) (titles : List String) (rel : String) : LinkMap :=
  if titles.length = 0 then links
  else assocSet links rel (sortStrings ((lookupStr links rel).getD [] ++ titles))

/-- WikiPage._add_inout_link. -/
def addInoutLink (links : LinkMap) (title rel : String) : LinkMap :=
  addInoutLinks links [title] rel

/-- The fallback loop of WikiPage._del_inout_link: erase the title from every
relation, dropping emptied relations. -/
def eraseTitleAll (links : LinkMap) (title : String) : LinkMap :=
  links.filterMap (fun e =>
    let l2 := e.2.erase title
    if l2.length = 0 then none else some (e.1, l2))

/-- WikiPage._del_inout_link.  When `rel` is a key of the map, the title is
erased from that list only (first occurrence, as `list.remove`); otherwise the
title is erased from every relation.  Emptied relations are dropped. -/
def delInoutLink (links : LinkMap) (title : String) (rel : Option String) : LinkMap :=
  match rel with
  | some r =>
    match lookupStr links r with
    | some l =>
      let l2 := l.erase title
      if l2.length = 0 then assocDel links r else assocSet links r l2
    | none => eraseTitleAll links title
  | none => eraseTitleAll links title

/-- Related-link scores (Python floats) as rationals. -/
abbrev Score := Rat

/-- Errors raised by the pipeline. `conflict` is `ConflictError(msg, base, new, merged)`;
`attrError` stands for a Python `AttributeError` crash (e.g. `None.body`). -/
inductive WikiErr
  | valueError (msg : String)
  | keyError (msg : String)
  | conflict (msg base proposed merged : String)
  | attrError
  deriving DecidableEq

/-- Decidable equality of raised-or-returned results, used to evaluate
concrete pipeline runs. -/
instance {ε α : Type} [DecidableEq ε] [DecidableEq α] : DecidableEq (Except ε α) := fun x y =>
  match x, y with
  | Except.ok a, Except.ok b =>
    if h : a = b then Decidable.isTrue (congrArg Except.ok h)
    else Decidable.isFalse (fun hh => h (Except.ok.inj hh))
  | Except.error a, Except.error b =>
    if h : a = b then Decidable.isTrue (congrArg Except.error h)
    else Decidable.isFalse (fun hh => h (Except.error.inj hh))
  | Except.ok _, Except.error _ => Decidable.isFalse (fun hh => Except.noConfusion hh)
  | Except.error _, Except.ok _ => Decidable.isFalse (fun hh => Except.noConfusion hh)

/-- The persisted page entity (the `ndb.Model` fields of `WikiPage`). -/
structure Page where
  title : String
  body : String
  revision : Nat
  acl_read : String
  acl_write : String
  comment : String
  description : String
  itemtype_path : String
  modifier : Option String
  updated_at : Option Nat
  published_at : Option Nat
  published_to : Option String
  older_title : Option String
  newer_title : Option String
  inlinks : LinkMap
  outlinks : LinkMap
  related_links : List (String × Score)
  deriving DecidableEq

/-- An immutable `WikiPageRevision` snapshot. -/
structure RevRecord where
  title : String
  body : String
  revision : Nat
  created_at : Option Nat
  comment : String
  modifier : Option String
  acl_read : String
  acl_write : String
  deriving DecidableEq

/-- Keys of the advisory read-through cache that the pipeline invalidates. -/
inductive CacheKey
  | renderedBody (t : String)
  | hashbangs (t : String)
  | metadataKey (t : String)
  | dataKey (t : String)
  | config
  | titles
  deriving DecidableEq

/-- A task handed to the deferred work queue (`deferred.defer`), recorded but
not executed by the call that schedules it. -/
inductive DeferredTask
  | updateLinksTask (title : String) (old_redir new_redir : Option String)
  | updateIndexTask (title : String)
  deriving DecidableEq

/-- The external SchemaDataIndex state, opaque to this module. -/
abbrev DataIndex := List (String × String × List String)

/-- The datastore plus cache and work queue, threaded through every operation. -/
structure Store where
  pages : List (String × Page)
  revisions : List RevRecord
  dataIndex : DataIndex
  caches : List CacheKey
  tasks : List DeferredTask
  deriving DecidableEq

/-- The in-memory placeholder `WikiPage(parent=key, title=title, body=u'',
revision=0, inlinks={}, outlinks={}, related_links={})`. -/
def defaultPage (title : String) : Page :=
  { title := title, body := "", revision := 0, acl_read := "", acl_write := "",
    comment := "", description := "", itemtype_path := "", modifier := none,
    updated_at := none, published_at := none, published_to := none,
    older_title := none, newer_title := none, inlinks := [], outlinks := [],
    related_links := [] }

/-- WikiPage.get_by_title without redirect following: the stored page, or a
fresh revision-0 placeholder. -/
def getByTitle (s : Store) (title : String) : Page :=
  (lookupStr s.pages title).getD (defaultPage title)

/-- Write a page back to the store keyed by its title (`put`). -/
def pagesSet : List (String × Page) → Page → List (String × Page)
  | [], p => [(p.title, p)]
  | (t, q) :: rest, p => if t = p.title then (p.title, p) :: rest else (t, q) :: pagesSet rest p

/-- Store update for one page. -/
def putPage (s : Store) (p : Page) : Store := { s with pages := pagesSet s.pages p }

/-- Delete a page row (`ndb.delete_multi` member). -/
def delPage (s : Store) (title : String) : Store :=
  { s with pages := s.pages.filter (fun e => e.1 ≠ title) }

/-- Does a datastore row exist for the title (models `page.key` truthiness)? -/
def hasPage (s : Store) (title : String) : Bool := (lookupStr s.pages title).isSome

/-- Drop one cache entry. -/
def cacheDel (s : Store) (k : CacheKey) : Store :=
  { s with caches := s.caches.filter (fun c => c ≠ k) }

/-- caching.del_rendered_body + caching.del_hashbangs for one title. -/
def cacheDelPage (s : Store) (t : String) : Store :=
  cacheDel (cacheDel s (CacheKey.renderedBody t)) (CacheKey.hashbangs t)

/-- The four per-title cache deletions of `_update_content_all` (lines 218-221). -/
def cacheDelAll (s : Store) (t : String) : Store :=
  cacheDel (cacheDel (cacheDelPage s t) (CacheKey.metadataKey t)) (CacheKey.dataKey t)

/-- Modelled from the spec: the metadata block parsed out of a body by
`PageOperationMixin.parse_metadata` (not under src/).  Per the spec it yields
the optional `redirect` target, the `read`/`write` ACL specifiers (empty when
absent), the page schema name and the optional `pub` series. -/
structure Meta where
  redirect : Option String
  readAcl : String
  writeAcl : String
  schemaName : String
  pub : Option String
  deriving DecidableEq

/-- A raw structured-data value as parsed out of a body: a scalar string or a
list of scalar strings. -/
inductive RawVal
  | s (v : String)
  | l (vs : List String)
  deriving DecidableEq

/-- A resolved schema property value.  `invalidS` is exactly an
`InvalidProperty` instance; `validS kind ptype raw` is an instance of any
other `Property` class (`kind` names the class, `ptype` the declared range). -/
inductive SPropVal
  | invalidS (ptype : String) (raw : RawVal)
  | validS (kind ptype : String) (raw : String)
  deriving DecidableEq

/-- A converted property: a single value or a per-element converted list. -/
inductive PVal
  | single (p : SPropVal)
  | plist (ps : List SPropVal)
  deriving DecidableEq

/-- The structured data of a page after schema conversion. -/
abbrev SData := List (String × PVal)

/-- One itemtype node of the schema catalog. -/
structure SchemaItem where
  supertypes : List String
  properties : List String
  specific_properties : List String
  deriving DecidableEq

/-- The external collaborators of the pipeline; every claim quantifies over
this record (or instantiates it concretely in a witness). -/
structure Env where
  parseMetadata : String → Meta
  canRead : Option String → List String → List String → Bool
  canWrite : Option String → List String → List String → Bool
  parseBodyData : String → String → List (String × RawVal)
  tocInvalid : String → Option String
  makeDescription : String → String
  parseOutlinks : Page → LinkMap
  schemaTypes : List (String × SchemaItem)
  datatypes : List String
  propRanges : List (String × List String)
  acceptNumber : String → Bool
  acceptInteger : String → Bool
  acceptFloat : String → Bool
  acceptURL : String → Bool
  acceptDate : String → Bool
  acceptISBN : String → Bool
  queryTitles : DataIndex → String → String → List String
  updateIndex : String → SData → SData → DataIndex → DataIndex
  now : Nat

/-- The fixed `PRIORITY` table of schema.py resolved through
`SchemaConverter.type_by_name`: a range name with no `<Name>Property` class
falls back to `ThingProperty` (priority 6). -/
def typePriority (name : String) : Nat :=
  if name = "ISBN" ∨ name = "URL" then 1
  else if name = "Date" ∨ name = "DateTime" ∨ name = "Time" then 2
  else if name = "Boolean" ∨ name = "Integer" ∨ name = "Float" ∨ name = "Number" then 3
  else if name = "Text" then 4
  else if name = "Type" then 5
  else 6

/-- Range names whose `<Name>Property` class exists in schema.py. -/
def isKnownClass (name : String) : Bool :=
  name = "Invalid" ∨ name = "Thing" ∨ name = "Type" ∨ name = "Boolean" ∨
  name = "Text" ∨ name = "Number" ∨ name = "Integer" ∨ name = "Float" ∨
  name = "DateTime" ∨ name = "Time" ∨ name = "URL" ∨ name = "Date" ∨ name = "ISBN"

/-- One constructor attempt of the `SchemaConverter._convert_prop` loop:
`some` when the class constructor accepts the raw string, `none` when it
raises `ValueError`.  `TypeProperty` subclasses first require the range name
to be a declared datatype; `ThingProperty` (also the fallback for unknown
range names) requires the range name to be a catalog itemtype.  The
numeric/regex validations of schema.py are the corresponding `Env` predicates. -/
def tryConstruct (env : Env) (tname raw : String) : Option SPropVal :=
  if tname = "Invalid" then some (SPropVal.invalidS tname (RawVal.s raw))
  else if tname = "Thing" then
    (if (lookupStr env.schemaTypes tname).isSome then some (SPropVal.validS "Thing" tname raw) else none)
  else if tname = "Type" then
    (if tname ∈ env.datatypes then some (SPropVal.validS "Type" tname raw) else none)
  else if tname = "Boolean" then
    (if tname ∈ env.datatypes ∧
        strToLower raw ∈ ["1", "yes", "true", "0", "no", "false"] then
       some (SPropVal.validS "Boolean" tname raw) else none)
  else if tname = "Text" then
    (if tname ∈ env.datatypes then some (SPropVal.validS "Text" tname raw) else none)
  else if tname = "Number" then
    (if tname ∈ env.datatypes ∧ env.acceptNumber raw then some (SPropVal.validS "Number" tname raw) else none)
  else if tname = "Integer" then
    (if tname ∈ env.datatypes ∧ env.acceptNumber raw ∧ env.acceptInteger raw then
       some (SPropVal.validS "Integer" tname raw) else none)
  else if tname = "Float" then
    (if tname ∈ env.datatypes ∧ env.acceptNumber raw ∧ env.acceptFloat raw then
       some (SPropVal.validS "Float" tname raw) else none)
  else if tname = "DateTime" ∨ tname = "Time" then
    (if tname ∈ env.datatypes then some (SPropVal.validS "Text" tname raw) else none)
  else if tname = "URL" then
    (if tname ∈ env.datatypes ∧ env.acceptURL raw then some (SPropVal.validS "URL" tname raw) else none)
  else if tname = "Date" then
    (if tname ∈ env.datatypes ∧ env.acceptDate raw then some (SPropVal.validS "Date" tname raw) else none)
  else if tname = "ISBN" then
    (if tname ∈ env.datatypes ∧ env.acceptISBN raw then some (SPropVal.validS "ISBN" tname raw) else none)
  else
    (if (lookupStr env.schemaTypes tname).isSome then some (SPropVal.validS "Thing" tname raw) else none)

/-- SchemaConverter._convert_prop range loop: first accepting constructor in
priority order wins, otherwise an `InvalidProperty` results. -/
def tryRanges (env : Env) (raw : String) : List String → SPropVal
  | [] => SPropVal.invalidS "Invalid" (RawVal.s raw)
  | t :: ts =>
    match tryConstruct env t raw with
    | some v => v
    | none => tryRanges env raw ts

/-- Ranges sorted by `PRIORITY` (Python `sorted` is stable; so is
`insertionSort`). -/
def sortedRanges (ranges : List String) : List String :=
  List.insertionSort (fun a b => typePriority a ≤ typePriority b) ranges

/-- SchemaConverter._convert_prop on one scalar.  The `schema` key is
special-cased to `TextProperty(itemtype, 'Text', value)`, whose
`TypeProperty` datatype check still applies.  A property missing from the
catalog raises `KeyError` (uncaught in Python). -/
def convertScalar (env : Env) (pkey raw : String) : Except WikiErr SPropVal :=
  if pkey = "schema" then
    (if "Text" ∈ env.datatypes then Except.ok (SPropVal.validS "Text" "Text" raw)
     else Except.error (WikiErr.valueError "Unknown datatype: Text"))
  else
    match lookupStr env.propRanges pkey with
    | none => Except.error (WikiErr.keyError pkey)
    | some ranges => Except.ok (tryRanges env raw (sortedRanges ranges))

/-- List-valued raw values are converted per element (SchemaConverter.convert_prop). -/
def convertProp (env : Env) (pkey : String) (rv : RawVal) : Except WikiErr PVal :=
  match rv with
  | RawVal.s v => (convertScalar env pkey v).map PVal.single
  | RawVal.l vs => (vs.mapM (convertScalar env pkey)).map PVal.plist

/-- SchemaConverter.convert_schema: keys outside the itemtype's declared
property lists (plus `schema`) become whole `InvalidProperty` values; known
keys are converted through the range loop. -/
def convertSchema (env : Env) (itemtype : String) (data : List (String × RawVal)) :
    Except WikiErr SData :=
  match lookupStr env.schemaTypes itemtype with
  | none => Except.error (WikiErr.valueError ("Unknown itemtype: " ++ itemtype))
  | some item =>
    let allowed := item.properties ++ item.specific_properties ++ ["schema"]
    let knowns := data.filter (fun e => e.1 ∈ allowed)
    let unknowns := data.filter (fun e => e.1 ∉ allowed)
    (knowns.mapM (fun e => (convertProp env e.1 e.2).map (fun v => (e.1, v)))).map
      (fun ks => ks ++ unknowns.map (fun e => (e.1, PVal.single (SPropVal.invalidS e.1 e.2))))

/-- Modelled from the spec: `PageOperationMixin.parse_data` (not under src/)
extracts raw structured data from the body (the `Env.parseBodyData`
collaborator) and resolves it through `SchemaConverter.convert` for the
page's schema. -/
def parseData (env : Env) (title body schemaName : String) : Except WikiErr SData :=
  convertSchema env schemaName (env.parseBodyData title body)

/-- Python `type(value) == schema.InvalidProperty`: true only for a top-level
`InvalidProperty`, never for a list (whatever its elements). -/
def isTopInvalid : PVal → Bool
  | PVal.single (SPropVal.invalidS _ _) => true
  | _ => false

/-- The offending keys collected by `validate_new_content` (line 296). -/
def invalidKeys (d : SData) : List String :=
  (d.filter (fun e => isTopInvalid e.2)).map (fun e => e.1)

/-- WikiPage._follow_redirect loop.  The trail is fixed at construction and
never extended inside the loop, exactly as in the source (lines 806-819).
Fuel counts loop iterations; `none` means the given fuel was exhausted with
the loop still running. -/
def followLoop (env : Env) (s : Store) (trail : List String) :
    Option String → Page → Nat → Option (Except WikiErr Page)
  | nr, page, fuel =>
    match nr.orElse (fun _ => (env.parseMetadata page.body).redirect) with
    | none => some (Except.ok page)
    | some next =>
      if next ∈ trail then some (Except.error (WikiErr.valueError "Circular redirection detected"))
      else
        match fuel with
        | 0 => none
        | Nat.succ f => followLoop env s trail none (getByTitle s next) f

/-- WikiPage._follow_redirect. -/
def followRedirect (env : Env) (s : Store) (page : Page) (newRedir : Option String)
    (fuel : Nat) : Option (Except WikiErr Page) :=
  followLoop env s [page.title] newRedir page fuel

/-- WikiPage.get_by_title with follow_redirect=True; a missing page becomes a
placeholder without redirect resolution (source lines 798-803). -/
def getByTitleFollow (env : Env) (s : Store) (title : String) (fuel : Nat) :
    Option (Except WikiErr Page) :=
  match lookupStr s.pages title with
  | none => some (Except.ok (defaultPage title))
  | some p => followRedirect env s p none fuel

/-- schema.get_itemtype_path loop: walk the first supertype repeatedly. -/
def itemtypePathLoop (env : Env) (origin : String) :
    List String → String → Nat → Option (Except WikiErr (List String))
  | parts, parent, fuel =>
    match lookupStr env.schemaTypes parent with
    | none => some (Except.error (WikiErr.valueError ("Unsupported schema: " ++ origin)))
    | some sc =>
      match sc.supertypes.head? with
      | none => some (Except.ok (parts ++ [parent]))
      | some p2 =>
        match fuel with
        | 0 => none
        | Nat.succ f => itemtypePathLoop env origin (parts ++ [parent]) p2 f

/-- schema.get_itemtype_path: root-to-leaf supertype chain joined with `/` and
a trailing slash; unknown types raise `ValueError`. -/
def getItemtypePath (env : Env) (itemtype : String) (fuel : Nat) :
    Option (Except WikiErr String) :=
  (itemtypePathLoop env itemtype [] itemtype fuel).map
    (Except.map (fun parts => String.intercalate "/" (parts.reverse ++ [""])))

/-- Result chaining for computations that can both diverge (`none`) and raise. -/
def resM {α β : Type} (x : Option (Except WikiErr α)) (f : α → Option (Except WikiErr β)) :
    Option (Except WikiErr β) :=
  match x with
  | none => none
  | some (Except.error e) => some (Except.error e)
  | some (Except.ok a) => f a

/-- Effectful map over a list in the diverge-or-raise result shape. -/
def mapResList {α β : Type} (f : α → Option (Except WikiErr β)) :
    List α → Option (Except WikiErr (List β))
  | [] => some (Except.ok [])
  | a :: as => resM (f a) (fun b => resM (mapResList f as) (fun bs => some (Except.ok (b :: bs))))

/-- WikiPage.validate_new_content: ACL self-lockout checks, circular-redirect
check, structured-data validity (top-level `InvalidProperty` only), base
revision bound, heading structure. -/
def validateNewContent (env : Env) (s : Store) (self : Page) (base_revision : Nat)
    (new_body : String) (user : Option String) (fuel : Nat) :
    Option (Except WikiErr (SData × Meta)) :=
  let new_md := env.parseMetadata new_body
  let acl_r := splitAcl new_md.readAcl
  let acl_w := splitAcl new_md.writeAcl
  if ¬ env.canRead user acl_r acl_w then
    some (Except.error (WikiErr.valueError "Cannot restrict your permission"))
  else if ¬ env.canWrite user acl_r acl_w then
    some (Except.error (WikiErr.valueError "Cannot restrict your permission"))
  else
    resM (followRedirect env s self new_md.redirect fuel) (fun _ =>
      match parseData env self.title new_body new_md.schemaName with
      | Except.error e => some (Except.error e)
      | Except.ok new_data =>
        if new_data.any (fun e => isTopInvalid e.2) then
          some (Except.error (WikiErr.valueError
            ("Invalid schema data: " ++ String.intercalate ", " (invalidKeys new_data))))
        else if self.revision < base_revision then
          some (Except.error (WikiErr.valueError
            ("Invalid revision number: " ++ toString base_revision)))
        else
          match env.tocInvalid new_body with
          | some reason => some (Except.error (WikiErr.valueError reason))
          | none => some (Except.ok (new_data, new_md)))

/-- The `WikiPageRevision.query(title, revision).get()` of `_merge_if_needed`. -/
def lookupRevision (s : Store) (title : String) (rev : Nat) : Option RevRecord :=
  s.revisions.find? (fun r => r.title = title ∧ r.revision = rev)

/-- Modelled from the spec: `PageOperationMixin.re_conflicted` is not under
src/; per the spec any remaining three-way conflict marker marks the merge as
conflicted, and `bzrlib.Merge3.merge_lines` emits `<<<<<<<` as its start
marker. -/
def hasConflictMarker (text : String) : Bool := containsSub text "<<<<<<<"

/-- The external `bzrlib.Merge3(base, mine, theirs).merge_lines()` collaborator,
joined to one text. -/
abbrev Merge3Fn := String → String → String → String

/-- WikiPage._merge_if_needed: verbatim body when the base revision equals the
current revision, otherwise a three-way merge against the stored base
revision record, failing with `ConflictError` when a marker remains.  A
missing base revision record is the Python `None.body` crash. -/
def mergeIfNeeded (m3 : Merge3Fn) (s : Store) (self : Page) (base_revision : Nat)
    (new_body : String) : Except WikiErr String :=
  if self.revision = base_revision then Except.ok new_body
  else
    match lookupRevision s self.title base_revision with
    | none => Except.error WikiErr.attrError
    | some baseRev =>
      let merged := m3 baseRev.body self.body new_body
      if hasConflictMarker merged then
        Except.error (WikiErr.conflict "Conflicted" baseRev.body new_body merged)
      else Except.ok merged

/-- WikiPage.get_posts_of: pages published to the series, newest first. -/
def getPostsOf (s : Store) (title : String) (count : Nat) : List Page :=
  (List.insertionSort
    (fun a b : Page => (b.published_at.getD 0) ≤ (a.published_at.getD 0))
    ((s.pages.map Prod.snd).filter
      (fun p => p.published_to = some title ∧ p.published_at ≠ none))).take count

/-- WikiPage._publish with save=False (called from `_update_pub_state`):
attach to the head of the series, linking the previous head's
`newer_title` to this page. -/
def publishStep (env : Env) (s : Store) (self : Page) (title : String) : Page × Store :=
  if self.published_at ≠ none ∧ self.published_to = some title then (self, s)
  else
    let posts := getPostsOf s title 1
    let withHead :=
      match posts with
      | [] => (self, s)
      | latest :: _ =>
        ({ self with older_title := some latest.title },
         putPage s { latest with newer_title := some self.title })
    let self2 := { withHead.1 with published_to := some title, published_at := some env.now }
    let s2 := cacheDelPage withHead.2 self2.title
    let s3 := match self2.newer_title with
      | some nt => cacheDelPage s2 nt
      | none => s2
    let s4 := match self2.older_title with
      | some ot => cacheDelPage s3 ot
      | none => s3
    (self2, s4)

/-- WikiPage._unpublish with save=False: detach from the series and re-link
the neighbours around this page. -/
def unpublishStep (s : Store) (self : Page) : Page × Store :=
  if self.published_at = none then (self, s)
  else
    let s1 := cacheDelPage s self.title
    let s2 := match self.newer_title with
      | some nt => cacheDelPage s1 nt
      | none => s1
    let s3 := match self.older_title with
      | some ot => cacheDelPage s2 ot
      | none => s2
    let s4 :=
      match self.older_title, self.newer_title with
      | some ot, some nt =>
        let older := getByTitle s3 ot
        let newer := getByTitle s3 nt
        putPage (putPage s3 { newer with older_title := some ot }) { older with newer_title := some nt }
      | some ot, none => putPage s3 { getByTitle s3 ot with newer_title := none }
      | none, some nt => putPage s3 { getByTitle s3 nt with older_title := none }
      | none, none => s3
    let self2 := { self with
      published_at := none
      published_to := none
      older_title := none
      newer_title := none }
    (self2, s4)

/-- WikiPage._update_pub_state. -/
def updatePubState (env : Env) (s : Store) (self : Page) (new_md old_md : Meta) :
    Page × Store :=
  match old_md.pub, new_md.pub with
  | some po, some pn =>
    if po ≠ pn then
      let u := unpublishStep s self
      publishStep env u.2 u.1 pn
    else publishStep env s self pn
  | none, some pn => publishStep env s self pn
  | _, none => unpublishStep s self

/-- All direct in/out link titles of a page (normalize_related_links lines 515-517). -/
def directLinksOf (p : Page) : List String :=
  (p.outlinks.map Prod.snd).flatten ++ (p.inlinks.map Prod.snd).flatten

/-- First stage of normalize_related_links: drop related entries that are
also direct links. -/
def filterDirect (p : Page) : List (String × Score) :=
  p.related_links.filter (fun e => e.1 ∉ directLinksOf p)

/-- Second stage: when more than 30 entries remain, sort ascending by score
and keep the last (highest) 30. -/
def cap30 (l : List (String × Score)) : List (String × Score) :=
  if 30 < l.length then
    (List.insertionSort (fun a b : String × Score => a.2 ≤ b.2) l).drop (l.length - 30)
  else l

/-- Third stage: divide every score by the total when the total exceeds 1. -/
def rescale (l : List (String × Score)) : List (String × Score) :=
  if 1 < (l.map Prod.snd).sum then l.map (fun e => (e.1, e.2 / (l.map Prod.snd).sum)) else l

/-- WikiPage.normalize_related_links as a function of the page. -/
def normalizeRelated (p : Page) : List (String × Score) :=
  rescale (cap30 (filterDirect p))

/-- WikiPage.normalize_related_links: store the normalised table back on the page. -/
def normalizeRelatedLinks (p : Page) : Page :=
  { p with related_links := normalizeRelated p }

/-- Iteration order of a link map as (relation, title) pairs. -/
def relPairs (m : LinkMap) : List (String × String) :=
  (m.map (fun e => e.2.map (fun t => (e.1, t)))).flatten

/-- Added-links half of WikiPage._update_inlinks: fetch (redirect-resolving)
each target and record the inbound edge.  Writes are applied as fetched,
matching the in-context cache semantics of the batched `put_multi`. -/
def addInlinksFold (env : Env) (fuel : Nat) (selfTitle : String) :
    Store → List (String × String) → Option (Except WikiErr Store)
  | s, [] => some (Except.ok s)
  | s, (rel, t) :: rest =>
    resM (getByTitleFollow env s t fuel) (fun page =>
      let page1 := { page with inlinks := addInoutLink page.inlinks selfTitle rel }
      addInlinksFold env fuel selfTitle (cacheDelPage (putPage s page1) page1.title) rest)

/-- Removed-links half of WikiPage._update_inlinks.  A target left with no
inbound links at revision 0 and a datastore key is deleted outright; the
Boolean records whether any deletion happened. -/
def remInlinksFold (env : Env) (fuel : Nat) (selfTitle : String) :
    Store → Bool → List (String × String) → Option (Except WikiErr (Store × Bool))
  | s, deleted, [] => some (Except.ok (s, deleted))
  | s, deleted, (rel, t) :: rest =>
    resM (getByTitleFollow env s t fuel) (fun page =>
      let page1 := { page with inlinks := delInoutLink page.inlinks selfTitle (some rel) }
      if page1.inlinks.length = 0 ∧ page1.revision = 0 ∧ hasPage s page1.title then
        remInlinksFold env fuel selfTitle (delPage s page1.title) true rest
      else
        remInlinksFold env fuel selfTitle (cacheDelPage (putPage s page1) page1.title) deleted rest)

/-- WikiPage._update_inlinks.  The final cache-invalidation loop of the source
(line 411) iterates `updates + deletes`, but `deletes` holds raw datastore
keys, which have no `.title` attribute: whenever a page was deleted the loop
raises `AttributeError` after the writes — modelled as `attrError` here. -/
def updateInlinks (env : Env) (fuel : Nat) (s : Store) (selfTitle : String)
    (added removed : LinkMap) : Option (Except WikiErr Store) :=
  resM (addInlinksFold env fuel selfTitle s (relPairs added)) (fun s1 =>
    resM (remInlinksFold env fuel selfTitle s1 false (relPairs removed)) (fun r =>
      if r.2 then some (Except.error WikiErr.attrError) else some (Except.ok r.1)))

/-- Resolution of one outlink target title through redirects (update_links line 354). -/
def resolveTitle (env : Env) (fuel : Nat) (s : Store) (t : String) :
    Option (Except WikiErr String) :=
  resM (getByTitleFollow env s t fuel) (fun p => some (Except.ok p.title))

/-- Per-relation redirect resolution and de-duplication of the parsed outlinks. -/
def resolveOutlinks (env : Env) (fuel : Nat) (s : Store) :
    LinkMap → Option (Except WikiErr LinkMap)
  | [] => some (Except.ok [])
  | (rel, titles) :: rest =>
    resM (mapResList (resolveTitle env fuel s) titles) (fun ts =>
      resM (resolveOutlinks env fuel s rest) (fun m =>
        some (Except.ok ((rel, ts.dedup) :: m))))

/-- The added-edges diff of update_links (lines 362-366). -/
def computeAdded (newOut cur : LinkMap) : LinkMap :=
  newOut.map (fun e =>
    match lookupStr cur e.1 with
    | some cs => (e.1, e.2.filter (fun t => t ∉ cs))
    | none => e)

/-- The removed-edges diff of update_links (lines 367-371). -/
def computeRemoved (cur newOut : LinkMap) : LinkMap :=
  cur.map (fun e =>
    match lookupStr newOut e.1 with
    | some ns => (e.1, e.2.filter (fun t => t ∉ ns))
    | none => e)

/-- Batched `ndb.put_multi`; with duplicate titles the later write wins. -/
def putMulti (s : Store) (ps : List Page) : Store := ps.foldl putPage s

/-- The pages whose outlinks `_update_redirected_links` rewrites: every page
holding an inbound edge of `source` is re-pointed from `source` to `target`.
All pages are fetched against the incoming store (the source batches its
writes in one `put_multi`). -/
def redirUpdatedPages (s : Store) (source target : Page) : List Page :=
  ((source.inlinks.map (fun e =>
    e.2.map (fun t =>
      let page := getByTitle s t
      { page with outlinks :=
        addInoutLink (delInoutLink page.outlinks source.title (some e.1)) target.title e.1 }))).flatten)

/-- The target of `_update_redirected_links` after absorbing all of the
source's inbound edges. -/
def redirTarget (source target : Page) : Page :=
  { target with inlinks := source.inlinks.foldl (fun m e => addInoutLinks m e.2 e.1) target.inlinks }

/-- WikiPage._update_redirected_links: a no-op when the redirect metadata is
unchanged; otherwise transplant the source's inbound edges onto the target. -/
def updateRedirectedLinks (env : Env) (s : Store) (selfTitle : String)
    (new_redir old_redir : Option String) (fuel : Nat) : Option (Except WikiErr Store) :=
  if old_redir = new_redir then some (Except.ok s)
  else
    resM (match old_redir with
          | some r => getByTitleFollow env s r fuel
          | none => some (Except.ok (getByTitle s selfTitle))) (fun source =>
      if source.inlinks.length = 0 then some (Except.ok s)
      else
        resM (match new_redir with
              | some r => getByTitleFollow env s r fuel
              | none => some (Except.ok (getByTitle s selfTitle))) (fun target =>
          let updates := { source with inlinks := [] } ::
            redirTarget source target :: redirUpdatedPages s source target
          let s1 := putMulti s updates
          some (Except.ok (updates.foldl (fun st p => cacheDelPage st p.title) s1))))

/-- WikiPage.update_links: redirect transplanting, inbound-edge
reconciliation from the added/removed diff (all inbound edges are dropped
when the page carries a read restriction), then the page's own outlinks are
sorted and stored. -/
def updateLinks (env : Env) (s : Store) (selfTitle : String)
    (old_redir new_redir : Option String) (fuel : Nat) : Option (Except WikiErr Store) :=
  resM (updateRedirectedLinks env s selfTitle new_redir old_redir fuel) (fun s1 =>
    let self := getByTitle s1 selfTitle
    let cur := self.outlinks
    resM (resolveOutlinks env fuel s1 (env.parseOutlinks self)) (fun newOut =>
      let diff :=
        if self.acl_read ≠ "" then (([] : LinkMap), cur)
        else (computeAdded newOut cur, computeRemoved cur newOut)
      resM (updateInlinks env fuel s1 selfTitle diff.1 diff.2) (fun s2 =>
        let newOutSorted := newOut.map (fun e => (e.1, sortStrings e.2))
        let self2 := { getByTitle s2 selfTitle with outlinks := newOutSorted }
        some (Except.ok (putPage s2 self2)))))

/-- WikiPage.update_links_and_data: run inline when `dont_defer`, otherwise
record the two queued tasks. -/
def updateLinksAndData (env : Env) (s : Store) (title : String)
    (old_redir new_redir : Option String) (old_data new_data : SData)
    (dontDefer : Bool) (fuel : Nat) : Option (Except WikiErr Store) :=
  if dontDefer then
    resM (updateLinks env s title old_redir new_redir fuel) (fun s1 =>
      some (Except.ok { s1 with dataIndex := env.updateIndex title old_data new_data s1.dataIndex }))
  else
    some (Except.ok { s with tasks := s.tasks ++
      [DeferredTask.updateLinksTask title old_redir new_redir,
       DeferredTask.updateIndexTask title] })

/-- Python `try: self.data.copy() except ValueError: {}` (lines 212-215). -/
def oldDataOf (env : Env) (self : Page) : Except WikiErr SData :=
  match parseData env self.title self.body (env.parseMetadata self.body).schemaName with
  | Except.ok d => Except.ok d
  | Except.error (WikiErr.valueError _) => Except.ok []
  | Except.error e => Except.error e

/-- WikiPage._update_content_all: no-op detection, validation, merge, cache
invalidation, field updates, revision bump, revision record, link/index
maintenance.  Failures before the cache-invalidation step leave the store
untouched (the function returns only the error). -/
def updateContentAll (env : Env) (m3 : Merge3Fn) (s : Store) (self : Page) (body : String)
    (base_revision : Nat) (comment : String) (user : Option String)
    (force dontCreateRev dontDefer : Bool) (fuel : Nat) :
    Option (Except WikiErr (Bool × Store)) :=
  if ¬ force ∧ self.body = body then some (Except.ok (false, s))
  else
    resM (validateNewContent env s self base_revision body user fuel) (fun vres =>
      match mergeIfNeeded m3 s self base_revision body with
      | Except.error e => some (Except.error e)
      | Except.ok new_body =>
        let old_md := env.parseMetadata self.body
        match oldDataOf env self with
        | Except.error e => some (Except.error e)
        | Except.ok old_data =>
          let s1 := cacheDelAll s self.title
          resM (getItemtypePath env vres.2.schemaName fuel) (fun ipath =>
            let p1 := { self with
              body := new_body
              modifier := user
              description := env.makeDescription new_body
              acl_read := vres.2.readAcl
              acl_write := vres.2.writeAcl
              comment := comment
              itemtype_path := ipath }
            let pub := updatePubState env s1 p1 vres.2 old_md
            let p3 := if ¬ dontCreateRev then { pub.1 with revision := pub.1.revision + 1 } else pub.1
            let p4 := if ¬ force then { p3 with updated_at := some env.now } else p3
            let s3 := putPage pub.2 p4
            let s4 := if ¬ dontCreateRev then
                { s3 with revisions := s3.revisions ++
                  [{ title := p4.title, body := p4.body, created_at := p4.updated_at,
                     revision := p4.revision, comment := p4.comment, modifier := p4.modifier,
                     acl_read := p4.acl_read, acl_write := p4.acl_write }] }
              else s3
            resM (updateLinksAndData env s4 p4.title old_md.redirect vres.2.redirect
                    old_data vres.1 dontDefer fuel) (fun s5 =>
              let s6 := if p4.title = ".config" then cacheDel s5 CacheKey.config else s5
              let s7 := if p4.revision = 1 then cacheDel s6 CacheKey.titles else s6
              some (Except.ok (true, s7)))))

/-- The characters matched by `(\s|x)` inside the checkbox pattern
`\[(\s|x)]` (Python 2 `\s` on a pattern without `re.UNICODE` simplifications:
space, tab, newline, carriage return, vertical tab, form feed — plus `x`). -/
def cbInnerChar (c : Char) : Bool :=
  c = ' ' ∨ c = '\t' ∨ c = '\n' ∨ c = '\r' ∨ c = '\x0b' ∨ c = '\x0c' ∨ c = 'x'

/-- The replacement token of `_update_content_checkbox`: `[x]` when the
proposed content is `'1'`, `[ ]` otherwise. -/
def cbTarget (content : String) : List Char :=
  if content = "1" then ['[', 'x', ']'] else ['[', ' ', ']']

/-- The `re.sub(ur'\[(\s|x)]', replacer, body)` scan of
`_update_content_checkbox`: non-overlapping left-to-right matches, counting
occurrences and replacing only the one at `idx`. -/
def reSubCb (tgt : List Char) (idx : Nat) : Nat → List Char → List Char
  | i, '[' :: c :: ']' :: rest =>
    if cbInnerChar c then
      (if i = idx then tgt else ['[', c, ']']) ++ reSubCb tgt idx (i + 1) rest
    else '[' :: reSubCb tgt idx i (c :: ']' :: rest)
  | i, a :: rest => a :: reSubCb tgt idx i rest
  | _, [] => []

/-- WikiPage._update_content_checkbox body rewriting. -/
def checkboxBody (content : String) (idx : Nat) (body : String) : String :=
  String.mk (reSubCb (cbTarget content) idx 0 body.data)

/-- Zero-based start positions of the checkbox matches in document order,
following the same scan as `reSubCb`. -/
def cbPos : List Char → List Nat
  | '[' :: c :: ']' :: rest =>
    if cbInnerChar c then 0 :: (cbPos rest).map (fun q => q + 3)
    else (cbPos (c :: ']' :: rest)).map (fun q => q + 1)
  | _ :: rest => (cbPos rest).map (fun q => q + 1)
  | [] => []

/-- Checkbox token positions of a body. -/
def cbPositions (body : String) : List Nat := cbPos body.data

/-- Specification device for the checkbox rewrite: replace the `n`-th checkbox
token of `l` (if any) by `tgt`, byte-identical elsewhere. -/
def cbSubAt (tgt : List Char) (l : List Char) (n : Nat) : List Char :=
  match (cbPos l)[n]? with
  | some p => l.take p ++ tgt ++ l.drop (p + 3)
  | none => l

/-- Everything before the last occurrence of `pat` in the parts split,
mirroring the greedy `(.*)` group of the log pattern. -/
def logLineRewrite (content line : String) : String :=
  let parts := line.splitOn "[__]"
  let pre := String.intercalate "[__]" parts.dropLast
  let post := parts.getLastD ""
  pre ++ content ++ post ++ "\n" ++ line

/-- The per-line scan of `_update_content_log`: the pattern
`(.*)(\[__])(.*)` matches exactly the lines containing `[__]` (one match per
line, `.` not crossing newlines); the `idx`-th such line gains a copy with
the marker replaced by the content, inserted immediately above it. -/
def logLinesGo (content : String) (idx : Nat) : Nat → List String → List String
  | _, [] => []
  | i, line :: rest =>
    if containsSub line "[__]" then
      (if i = idx then logLineRewrite content line else line) :: logLinesGo content idx (i + 1) rest
    else line :: logLinesGo content idx i rest

/-- WikiPage._update_content_log body rewriting. -/
def logBody (content : String) (idx : Nat) (body : String) : String :=
  String.intercalate "\n" (logLinesGo content idx 0 (body.splitOn "\n"))

/-- The parsed partial-mode expression of update_content (`'all'`,
`'checkbox[i]'` or `'log[i]'`; anything else raises). -/
inductive PartialMode
  | all
  | checkbox (idx : Nat)
  | log (idx : Nat)
  | invalidMode (exp : String)
  deriving DecidableEq

/-- WikiPage.update_content: CRLF normalisation followed by the partial-mode
dispatch. -/
def updateContent (env : Env) (m3 : Merge3Fn) (s : Store) (self : Page) (content : String)
    (base_revision : Nat) (comment : String) (user : Option String)
    (force dontCreateRev dontDefer : Bool) (mode : PartialMode) (fuel : Nat) :
    Option (Except WikiErr (Bool × Store)) :=
  let content1 := crlfStr content
  match mode with
  | PartialMode.all =>
    updateContentAll env m3 s self content1 base_revision comment user force dontCreateRev dontDefer fuel
  | PartialMode.checkbox idx =>
    updateContentAll env m3 s self (checkboxBody content1 idx self.body) base_revision comment user
      force dontCreateRev dontDefer fuel
  | PartialMode.log idx =>
    updateContentAll env m3 s self (logBody content1 idx self.body) base_revision comment user
      force dontCreateRev dontDefer fuel
  | PartialMode.invalidMode exp =>
    some (Except.error (WikiErr.valueError ("Invalid partial expression: " ++ exp)))

/-- WikiPage._update_related_links, the decayed random walk.  The random
choice `random.choice(links)` is modelled by a stream of picks: at each hop
the head of `picks` selects an index into the eligible links (mod length).
Scores: the incoming score is halved and the halved score is written over the
chosen target's entry of the origin's table; a real (revision > 0) target
also accumulates the halved score for the origin in its own table and is
renormalised and stored at once. -/
def walkEligible (startTitle : String) (page : Page) : List String :=
  ((page.outlinks.map Prod.snd).flatten).filter (fun l => l ≠ startTitle)

/-- The modelled `random.choice(links)`: the head of the pick stream selects
an index into the eligible links. -/
def walkChosen (startTitle : String) (page : Page) (picks : List Nat) : String :=
  (walkEligible startTitle page).getD
    ((picks.headD 0) % (walkEligible startTitle page).length) ""

/-- The `if next_link not in score_table: score_table[next_link] = 0.0` step. -/
def walkTable1 (table : List (String × Score)) (next_link : String) :
    List (String × Score) :=
  if (lookupStr table next_link).isNone then table ++ [(next_link, 0)] else table

/-- The symmetric update of a real (revision > 0) target: accumulate the
halved score for the origin in the target's own table, renormalise it and
store the target (wiki_page.py lines 665-672). -/
def walkTouchTarget (s : Store) (startTitle : String) (next_page : Page)
    (next_score : Score) : Store :=
  if 0 < next_page.revision then
    let rl := walkTable1 next_page.related_links startTitle
    let rl2 := assocSet rl startTitle (((lookupStr rl startTitle).getD 0) + next_score)
    putPage s (normalizeRelatedLinks { next_page with related_links := rl2 })
  else s

def relatedWalk (env : Env) (fuel : Nat) (startTitle : String) :
    Store → Page → Score → List (String × Score) → Nat → List Nat →
    Option (Except WikiErr (Bool × List (String × Score) × Store))
  | s, _, _, table, 0, _ => some (Except.ok (false, table, s))
  | s, page, score, table, Nat.succ d, picks =>
    if (walkEligible startTitle page).length = 0 then some (Except.ok (false, table, s))
    else
      resM (getByTitleFollow env s (walkChosen startTitle page picks) fuel) (fun next_page =>
        resM (relatedWalk env fuel startTitle
            (walkTouchTarget s startTitle next_page (score * (1 / 2)))
            next_page (score * (1 / 2))
            (assocSet (walkTable1 table next_page.title) next_page.title (score * (1 / 2)))
            d picks.tail)
          (fun r => some (Except.ok (true, r.2.1, r.2.2))))

/-- WikiPage.update_related_links: seed the walk at score 0.1 for at most
`max_distance` (default 5) hops, then store and normalise the origin's table. -/
def updateRelatedLinks (env : Env) (fuel : Nat) (s : Store) (selfTitle : String)
    (picks : List Nat) (max_distance : Nat) : Option (Except WikiErr (Bool × Store)) :=
  let self := getByTitle s selfTitle
  if self.outlinks.length = 0 then some (Except.ok (false, s))
  else
    resM (relatedWalk env fuel selfTitle s self (1 / 10) self.related_links max_distance picks)
      (fun r =>
        if ¬ r.1 then some (Except.ok (false, r.2.2))
        else
          let self1 := { getByTitle r.2.2 selfTitle with related_links := r.2.1 }
          some (Except.ok (true, putPage r.2.2 (normalizeRelatedLinks self1))))

/-- The pre-parsed wikiquery AST: nested token lists of strings. -/
inductive QTree
  | leaf (v : String)
  | node (ts : List QTree)

/-- WikiPage._evaluate_page_query_term: a bare `schema` value is resolved to
its itemtype path first, then the inverted index is consulted. -/
def evalTerm (env : Env) (d : DataIndex) (fuel : Nat) (n v : String) :
    Option (Except WikiErr (List String)) :=
  if n = "schema" ∧ ¬ ('/' ∈ v.data) then
    resM (getItemtypePath env v fuel) (fun path => some (Except.ok (env.queryTitles d n path)))
  else some (Except.ok (env.queryTitles d n v))

/-- Python `set(a).intersection(b)` on title lists, up to membership. -/
def interTitles (a b : List String) : List String := a.filter (fun t => t ∈ b)

/-- Python `set(a).union(b)` on title lists, up to membership. -/
def unionTitles (a b : List String) : List String := a ++ b.filter (fun t => t ∉ a)

mutual
/-- WikiPage._evaluate_pages on a token list: singletons unwrap, pairs of
strings are predicates, longer lists are `(operand, operator, rest)`
expressions whose operands are evaluated before the operator is inspected.
Token shapes the real parser never produces are modelled as malformed. -/
def evalPagesL (env : Env) (d : DataIndex) (fuel : Nat) :
    List QTree → Option (Except WikiErr (List String))
  | [t] => evalTree env d fuel t
  | [QTree.leaf n, QTree.leaf v] => evalTerm env d fuel n v
  | [_, _] => some (Except.error (WikiErr.valueError "malformed query"))
  | t :: op :: rest =>
    resM (evalTree env d fuel t) (fun p1 =>
      resM (evalPagesL env d fuel rest) (fun p2 =>
        match op with
        | QTree.leaf o =>
          if o = "*" then some (Except.ok (interTitles p1 p2))
          else if o = "+" then some (Except.ok (unionTitles p1 p2))
          else some (Except.error (WikiErr.valueError ("Invalid operator: " ++ o)))
        | _ => some (Except.error (WikiErr.valueError "Invalid operator"))))
  | [] => some (Except.error (WikiErr.valueError "malformed query"))

/-- WikiPage._evaluate_pages on one token. -/
def evalTree (env : Env) (d : DataIndex) (fuel : Nat) :
    QTree → Option (Except WikiErr (List String))
  | QTree.node ts => evalPagesL env d fuel ts
  | QTree.leaf _ => some (Except.error (WikiErr.valueError "malformed query"))
end

/-- WikiPage.get_index: readable pages with an update timestamp, in title order. -/
def getIndexPages (env : Env) (s : Store) (user : Option String) : List Page :=
  (List.insertionSort (fun a b : Page => strLe a.title b.title = true)
    (s.pages.map Prod.snd)).filter
    (fun p => p.updated_at ≠ none ∧ env.canRead user (splitAcl p.acl_read) (splitAcl p.acl_write))

/-- WikiPage.get_titles: the title set the identity is permitted to read. -/
def getTitles (env : Env) (s : Store) (user : Option String) : List String :=
  ((getIndexPages env s user).map (fun p => p.title)).dedup

/-- The title-set slice of WikiPage.wikiquery (lines 733-735): evaluate the
query, intersect with the readable titles, and sort. -/
def wikiqueryTitles (env : Env) (s : Store) (q : List QTree) (user : Option String)
    (fuel : Nat) : Option (Except WikiErr (List String)) :=
  resM (evalPagesL env s.dataIndex fuel q) (fun titles =>
    some (Except.ok (sortStrings ((getTitles env s user).filter (fun t => t ∈ titles)))))

/-- Metadata of a plain body in the concrete test environment: no redirect,
no ACLs, schema `Thing`, no pub directive. -/
def testMeta : Meta :=
  { redirect := none, readAcl := "", writeAcl := "", schemaName := "Thing", pub := none }

/-- A concrete environment for witnesses and counterexamples: permissive ACLs,
no redirects, a one-type catalog with a Boolean-ranged `author` property, and
two marked bodies (`"bad"`, `"lst"`) carrying structured data that fails the
Boolean validation as a scalar and inside a list respectively. -/
def testEnv : Env :=
  { parseMetadata := fun _ => testMeta
    canRead := fun _ _ _ => true
    canWrite := fun _ _ _ => true
    parseBodyData := fun _ body =>
      if body = "bad" then [("author", RawVal.s "maybe")]
      else if body = "lst" then [("author", RawVal.l ["maybe"])]
      else []
    tocInvalid := fun _ => none
    makeDescription := fun _ => ""
    parseOutlinks := fun _ => []
    schemaTypes := [("Thing", { supertypes := [], properties := ["author"], specific_properties := [] })]
    datatypes := ["Text", "Boolean"]
    propRanges := [("author", ["Boolean"])]
    acceptNumber := fun _ => false
    acceptInteger := fun _ => false
    acceptFloat := fun _ => false
    acceptURL := fun _ => false
    acceptDate := fun _ => false
    acceptISBN := fun _ => false
    queryTitles := fun _ _ _ => []
    updateIndex := fun _ _ _ d => d
    now := 7 }

/-- A merge collaborator that returns the proposed text (never used on the
merge-free paths it witnesses). -/
def m3id : Merge3Fn := fun _ _ theirs => theirs

/-- A merge collaborator that always reports an unresolved conflict region. -/
def m3conflict : Merge3Fn := fun base _ theirs => "<<<<<<< " ++ base ++ " " ++ theirs

/-- A concrete stored page. -/
def pageX : Page := { defaultPage "X" with body := "x", revision := 1 }

/-- A concrete stored page at revision 2 (for stale-base merges). -/
def pageY : Page := { defaultPage "Y" with body := "mine", revision := 2 }

/-- A concrete store holding `pageX`, `pageY` and the revision-1 snapshot of Y. -/
def storeX : Store :=
  { pages := [("X", pageX), ("Y", pageY)]
    revisions := [{ title := "Y", body := "ancestor", revision := 1, created_at := some 1,
                    comment := "", modifier := none, acl_read := "", acl_write := "" }]
    dataIndex := []
    caches := []
    tasks := [] }

/-- An environment whose metadata parser reads redirect directives off marked
bodies: `"rA"` redirects to B, `"rB"` to C, `"rC"` back to B, and `"rD"`/`"rE"`
form a two-cycle through the start. -/
def redirEnv : Env :=
  { testEnv with
    parseMetadata := fun body =>
      if body = "rA" then { testMeta with redirect := some "B" }
      else if body = "rB" then { testMeta with redirect := some "C" }
      else if body = "rC" then { testMeta with redirect := some "B" }
      else if body = "rD" then { testMeta with redirect := some "E" }
      else if body = "rE" then { testMeta with redirect := some "D" }
      else testMeta }

/-- Pages whose redirect chain contains a cycle that does not pass through the
starting page A (A → B → C → B → …), plus a two-cycle D ↔ E. -/
def storeR : Store :=
  { pages := [("A", { defaultPage "A" with body := "rA", revision := 1 }),
              ("B", { defaultPage "B" with body := "rB", revision := 1 }),
              ("C", { defaultPage "C" with body := "rC", revision := 1 }),
              ("D", { defaultPage "D" with body := "rD", revision := 1 }),
              ("E", { defaultPage "E" with body := "rE", revision := 1 })]
    revisions := [], dataIndex := [], caches := [], tasks := [] }

/-- An environment with a two-valued inverted index for query-evaluator runs. -/
def qEnv : Env :=
  { testEnv with
    queryTitles := fun _ _ v => if v = "5" then ["a", "b"] else ["b", "c"] }

/-- A page whose related-score table holds one direct-link title and one
unrelated title. -/
def pageW : Page :=
  { defaultPage "W" with
    outlinks := [("rel", ["s"])]
    related_links := [("r", (1 : Score)), ("s", (2 : Score))] }

/-- A walk origin with a single outbound target `B` that exists only as a
placeholder. -/
def pageO : Page :=
  { defaultPage "O" with body := "o", revision := 1, outlinks := [("rel", ["B"])] }

/-- The store holding only the walk origin. -/
def storeW : Store :=
  { pages := [("O", pageO)], revisions := [], dataIndex := [], caches := [], tasks := [] }

/-- The titles recorded under one relation of a link map (`links[rel]`,
defaulting to none-recorded). -/
def relAt (m : LinkMap) (rel : String) : List String := (lookupStr m rel).getD []

/-- The inbound titles of a stored page under one relation. -/
def inlinksAt (s : Store) (t rel : String) : List String := relAt (getByTitle s t).inlinks rel

/-- Store well-formedness: every row is keyed by its page's title. -/
def StoreWF (s : Store) : Prop := ∀ e ∈ s.pages, (e : String × Page).2.title = e.1

/-- An environment deriving one outbound link for page A, for link-graph runs. -/
def linkEnv : Env :=
  { testEnv with
    parseOutlinks := fun p => if p.title = "A" then [("rel", ["B"])] else [] }

/-- A store holding only page A, with no outlinks recorded yet. -/
def storeL : Store :=
  { pages := [("A", { defaultPage "A" with revision := 1 })]
    revisions := [], dataIndex := [], caches := [], tasks := [] }

/-! ### Theorems -/

/-- Peeling one leading character off both sides of a positional splice. -/
theorem spliceCons (a : Char) (l tgt : List Char) (p : Nat) :
    (a :: l).take (p + 1) ++ tgt ++ (a :: l).drop (p + 1 + 3) =
      a :: (l.take p ++ tgt ++ l.drop (p + 3)) := by
  simp [List.take_succ_cons, List.drop_succ_cons]

/-- Shifting a positional splice across a whole matched checkbox token. -/
theorem spliceCons3 (c : Char) (rest tgt : List Char) (q : Nat) :
    ('[' :: c :: ']' :: rest).take (q + 3) ++ tgt ++ ('[' :: c :: ']' :: rest).drop (q + 3 + 3) =
      '[' :: c :: ']' :: (rest.take q ++ tgt ++ rest.drop (q + 3)) := by
  simp [List.take_succ_cons, List.drop_succ_cons]

/-- `cbSubAt` on a non-match head just carries the head through. -/
theorem cbSubAt_skip (tgt : List Char) (a : Char) (rest : List Char) (n : Nat)
    (h : cbPos (a :: rest) = (cbPos rest).map (fun q => q + 1)) :
    cbSubAt tgt (a :: rest) n = a :: cbSubAt tgt rest n := by
  simp only [cbSubAt, h, List.getElem?_map]
  cases hq : (cbPos rest)[n]? with
  | none => simp [hq]
  | some q => simp only [hq]; exact spliceCons a rest tgt q

/-- The `reSubCb` scan is fully characterised by the match positions: with the
counter already past `idx` nothing changes, and with the counter at or below
`idx` exactly the match numbered `idx - i` (if any) is replaced by the target. -/
theorem reSubCb_eq (tgt : List Char) (idx : Nat) : ∀ (i : Nat) (l : List Char),
    (idx < i → reSubCb tgt idx i l = l) ∧
    (i ≤ idx → reSubCb tgt idx i l = cbSubAt tgt l (idx - i)) := by
  intro i l
  induction i, l using reSubCb.induct tgt idx with
  | case1 i c rest hc ih =>
    constructor
    · intro hlt
      have hne : ¬ i = idx := by omega
      simp only [reSubCb, hc, if_true, hne, if_false]
      rw [ih.1 (by omega)]
      rfl
    · intro hle
      by_cases hi : i = idx
      · subst hi
        simp only [reSubCb, hc, if_true, if_pos rfl]
        rw [ih.1 (by omega)]
        simp [cbSubAt, cbPos, hc, Nat.sub_self]
      · have hlt : i < idx := Nat.lt_of_le_of_ne hle hi
        simp only [reSubCb, hc, if_true, if_neg hi]
        rw [ih.2 (by omega)]
        have harith : idx - i = (idx - (i + 1)) + 1 := by omega
        rw [harith]
        have hmain : cbSubAt tgt ('[' :: c :: ']' :: rest) ((idx - (i + 1)) + 1) =
            '[' :: c :: ']' :: cbSubAt tgt rest (idx - (i + 1)) := by
          simp only [cbSubAt, cbPos, hc, if_true, List.getElem?_cons_succ, List.getElem?_map]
          cases hq : (cbPos rest)[idx - (i + 1)]? with
          | none => simp [hq]
          | some q => simp only [hq]; exact spliceCons3 c rest tgt q
        rw [hmain]
        simp [cbSubAt]
  | case2 i c rest hc ih =>
    have hcb : cbPos ('[' :: c :: ']' :: rest) = (cbPos (c :: ']' :: rest)).map (fun q => q + 1) := by
      simp [cbPos, hc]
    constructor
    · intro hlt
      simp only [reSubCb, hc, Bool.false_eq_true, if_false]
      rw [ih.1 hlt]
    · intro hle
      simp only [reSubCb, hc, Bool.false_eq_true, if_false]
      rw [ih.2 hle, cbSubAt_skip tgt '[' (c :: ']' :: rest) (idx - i) hcb]
  | case3 i a rest hshape ih =>
    have hre : reSubCb tgt idx i (a :: rest) = a :: reSubCb tgt idx i rest := by
      rw [reSubCb.eq_def]
      split
      · rename_i c r2 heq
        injection heq with h1 h2
        exact (hshape c r2 h1 h2).elim
      · rename_i a2 r2 hsh heq
        injection heq with h1 h2
        subst h1
        subst h2
        rfl
      · rename_i heq
        simp at heq
    have hcb : cbPos (a :: rest) = (cbPos rest).map (fun q => q + 1) := by
      rw [cbPos.eq_def]
      split
      · rename_i c r2 heq
        injection heq with h1 h2
        exact (hshape c r2 h1 h2).elim
      · rename_i a2 r2 heq
        injection heq with h1 h2
        subst h1
        subst h2
        rfl
      · rename_i heq
        simp at heq
    constructor
    · intro hlt
      rw [hre, ih.1 hlt]
    · intro hle
      rw [hre, ih.2 hle, cbSubAt_skip tgt a rest (idx - i) hcb]
  | case4 i => exact ⟨fun _ => rfl, fun _ => rfl⟩

/-- Claim C8 counterexample: with stored body `"[x]"`, proposed content `"1"`
and index 0 there is a zeroth checkbox occurrence, yet the checkbox-mode
rewrite changes nothing at all — the occurrence is not flipped between
checked and unchecked (the mode writes the content-selected state, here the
state the occurrence already has), contradicting the claim that exactly the
i-th occurrence changes. -/
theorem C8_counterexample :
    cbPositions "[x]" = [0] ∧ checkboxBody "1" 0 "[x]" = "[x]" := by decide

/-- Claim C8 (amended): for every stored body and zero-based index `i`,
checkbox mode rewrites at most the `i`-th token of the form `[w]` (`w` a
single whitespace character or `x`) in document order, setting it to `[x]`
when the proposed content is `"1"` and to `[ ]` otherwise, and leaves every
other byte of the body identical; when fewer than `i + 1` such tokens exist
the body is returned unchanged. -/
theorem C8_amended (content : String) (idx : Nat) (body : String) :
    (∀ p, (cbPositions body)[idx]? = some p →
      (checkboxBody content idx body).data =
        body.data.take p ++ cbTarget content ++ body.data.drop (p + 3)) ∧
    ((cbPositions body)[idx]? = none → checkboxBody content idx body = body) := by
  have h := (reSubCb_eq (cbTarget content) idx 0 body.data).2 (Nat.zero_le idx)
  constructor
  · intro p hp
    show (reSubCb (cbTarget content) idx 0 body.data) =
      body.data.take p ++ cbTarget content ++ body.data.drop (p + 3)
    rw [h]
    simp only [cbSubAt, Nat.sub_zero]
    rw [show (cbPos body.data)[idx]? = some p from hp]
  · intro hp
    show String.mk (reSubCb (cbTarget content) idx 0 body.data) = body
    rw [h]
    simp only [cbSubAt, Nat.sub_zero]
    rw [show (cbPos body.data)[idx]? = none from hp]

/-- Witness for C8_amended at the body `"[ ] a [x]"`, index 1: the second
token (at byte 6) is set to `[ ]`, all other bytes unchanged. -/
theorem C8_amended_witness :
    (cbPositions "[ ] a [x]")[1]? = some 6 ∧
    (checkboxBody "0" 1 "[ ] a [x]").data =
      ("[ ] a [x]" : String).data.take 6 ++ cbTarget "0" ++ ("[ ] a [x]" : String).data.drop 9 :=
  ⟨by decide, (C8_amended "0" 1 "[ ] a [x]").1 6 (by decide)⟩

/-- Writing a page stores it under its title. -/
theorem lookupStr_pagesSet_self (ps : List (String × Page)) (p : Page) :
    lookupStr (pagesSet ps p) p.title = some p := by
  induction ps with
  | nil => simp [pagesSet, lookupStr]
  | cons e rest ih =>
    obtain ⟨t, q⟩ := e
    by_cases ht : t = p.title
    · simp [pagesSet, ht, lookupStr]
    · simp only [pagesSet, ht, if_false, lookupStr]
      exact ih

/-- Reading back a page just written. -/
theorem getByTitle_putPage (s : Store) (p : Page) : getByTitle (putPage s p) p.title = p := by
  simp [getByTitle, putPage, lookupStr_pagesSet_self]

/-- Cache invalidation does not touch page rows. -/
theorem getByTitle_cacheDel (s : Store) (k : CacheKey) (t : String) :
    getByTitle (cacheDel s k) t = getByTitle s t := rfl

/-- A conditional cache invalidation does not touch page rows either. -/
theorem getByTitle_condCacheDel (s : Store) (c : Prop) [Decidable c] (k : CacheKey) (t : String) :
    getByTitle (if c then cacheDel s k else s) t = getByTitle s t := by
  split <;> rfl

/-- The merge helper is the identity on the proposed body whenever the stated
base revision equals the current revision: neither the merge collaborator nor
the revision store is consulted (wiki_page.py lines 261-262). -/
theorem mergeIfNeeded_self (m3 : Merge3Fn) (s : Store) (self : Page) (body : String) :
    mergeIfNeeded m3 s self self.revision body = Except.ok body := by
  simp [mergeIfNeeded]

/-- Publishing only rewires publication fields of the page. -/
theorem publishStep_fields (env : Env) (s : Store) (q : Page) (t : String) :
    (publishStep env s q t).1.title = q.title ∧ (publishStep env s q t).1.body = q.body ∧
    (publishStep env s q t).1.revision = q.revision := by
  unfold publishStep
  split
  · exact ⟨rfl, rfl, rfl⟩
  · cases getPostsOf s t 1 <;> exact ⟨rfl, rfl, rfl⟩

/-- Unpublishing only rewires publication fields of the page. -/
theorem unpublishStep_fields (s : Store) (q : Page) :
    (unpublishStep s q).1.title = q.title ∧ (unpublishStep s q).1.body = q.body ∧
    (unpublishStep s q).1.revision = q.revision := by
  unfold unpublishStep
  split
  · exact ⟨rfl, rfl, rfl⟩
  · exact ⟨rfl, rfl, rfl⟩

/-- Publication-state reconciliation only rewires publication fields. -/
theorem updatePubState_fields (env : Env) (s : Store) (q : Page) (a b : Meta) :
    (updatePubState env s q a b).1.title = q.title ∧ (updatePubState env s q a b).1.body = q.body ∧
    (updatePubState env s q a b).1.revision = q.revision := by
  unfold updatePubState
  cases hb : b.pub with
  | none =>
    cases ha : a.pub with
    | none => exact unpublishStep_fields s q
    | some pn => exact publishStep_fields env s q pn
  | some po =>
    cases ha : a.pub with
    | none => exact unpublishStep_fields s q
    | some pn =>
      dsimp only
      by_cases hpo : po ≠ pn
      · rw [if_pos hpo]
        have h1 := unpublishStep_fields s q
        have h2 := publishStep_fields env (unpublishStep s q).2 (unpublishStep s q).1 pn
        exact ⟨h2.1.trans h1.1, h2.2.1.trans h1.2.1, h2.2.2.trans h1.2.2⟩
      · rw [if_neg hpo]
        exact publishStep_fields env s q pn

/-- Queueing tasks does not touch page rows. -/
theorem getByTitle_tasks (s : Store) (t : List DeferredTask) (x : String) :
    getByTitle { s with tasks := t } x = getByTitle s x := rfl

/-- Conditionally appending a revision record does not touch page rows. -/
theorem getByTitle_condRevs (s : Store) (c : Prop) [Decidable c] (r : List RevRecord)
    (x : String) :
    getByTitle (if c then { s with revisions := r } else s) x = getByTitle s x := by
  split <;> rfl

/-- Conditional timestamping preserves the page title. -/
theorem page_condStamp_title (c : Prop) [Decidable c] (p : Page) (u : Option Nat) :
    (if c then { p with updated_at := u } else p).title = p.title := by
  split <;> rfl

/-- Conditional timestamping preserves the page body. -/
theorem page_condStamp_body (c : Prop) [Decidable c] (p : Page) (u : Option Nat) :
    (if c then { p with updated_at := u } else p).body = p.body := by
  split <;> rfl

/-- The conditional revision bump preserves the page title. -/
theorem page_condBump_title (c : Prop) [Decidable c] (p : Page) :
    (if c then { p with revision := p.revision + 1 } else p).title = p.title := by
  split <;> rfl

/-- The conditional revision bump preserves the page body. -/
theorem page_condBump_body (c : Prop) [Decidable c] (p : Page) :
    (if c then { p with revision := p.revision + 1 } else p).body = p.body := by
  split <;> rfl

/-- Reading back a page written under a known title. -/
theorem getByTitle_putPage_of (s : Store) (p : Page) (t : String) (h : p.title = t) :
    getByTitle (putPage s p) t = p := by
  subst h
  exact getByTitle_putPage s p

/-- A successful whole-body update whose stated base revision equals the
current revision stores exactly the body it was handed. -/
theorem updateContentAll_body (env : Env) (m3 : Merge3Fn) (s : Store) (self : Page)
    (body comment : String) (user : Option String) (force dcr : Bool) (fuel : Nat)
    (hstored : lookupStr s.pages self.title = some self) :
    ∀ b s2, updateContentAll env m3 s self body self.revision comment user force dcr false fuel =
        some (Except.ok (b, s2)) →
      (getByTitle s2 self.title).body = body := by
  intro b s2 h
  unfold updateContentAll at h
  by_cases hno : ¬force ∧ self.body = body
  · rw [if_pos hno] at h
    simp only [Option.some.injEq, Except.ok.injEq, Prod.mk.injEq] at h
    rw [← h.2, getByTitle, hstored]
    exact hno.2
  · rw [if_neg hno] at h
    cases hv : validateNewContent env s self self.revision body user fuel with
    | none => rw [hv] at h; simp [resM] at h
    | some r =>
      cases r with
      | error e => rw [hv] at h; simp [resM] at h
      | ok vd =>
        rw [hv] at h
        simp only [resM] at h
        rw [mergeIfNeeded_self] at h
        cases hod : oldDataOf env self with
        | error e => rw [hod] at h; simp at h
        | ok od =>
          rw [hod] at h
          cases hip : getItemtypePath env vd.2.schemaName fuel with
          | none => rw [hip] at h; simp [resM] at h
          | some rip =>
            cases rip with
            | error e => rw [hip] at h; simp [resM] at h
            | ok ipath =>
              rw [hip] at h
              simp only [resM, updateLinksAndData, Bool.false_eq_true, if_false,
                Option.some.injEq, Except.ok.injEq, Prod.mk.injEq] at h
              rw [← h.2]
              rw [getByTitle_condCacheDel, getByTitle_condCacheDel, getByTitle_tasks,
                getByTitle_condRevs]
              have hpub := updatePubState_fields env (cacheDelAll s self.title)
                { self with
                  body := body
                  modifier := user
                  description := env.makeDescription body
                  acl_read := vd.2.readAcl
                  acl_write := vd.2.writeAcl
                  comment := comment
                  itemtype_path := ipath } vd.2 (env.parseMetadata self.body)
              rw [getByTitle_putPage_of]
              · rw [page_condStamp_body, page_condBump_body, hpub.2.1]
              · rw [page_condStamp_title, page_condBump_title, hpub.1]

/-- Claim C10 counterexample: the CRLF replacement is a single pass, so the
proposed content with a CR CR LF run is stored by a successful whole-body
update with a CRLF sequence still in it, contradicting the claim that no body
stored through update_content contains CRLF. -/
theorem C10_counterexample :
    (updateContent testEnv m3id storeX pageX "a\r\r\nb" 1 "" none false false false
        PartialMode.all 1).map
      (Except.map (fun r => (r.1, (getByTitle r.2 "X").body,
        containsCrlf (getByTitle r.2 "X").body.data))) =
      some (Except.ok (true, "a\r\nb", true)) := by decide

/-- Claim C10 (amended): update_content replaces the CRLF sequences of the
proposed content in one left-to-right pass before any processing — whole-body
mode operates on exactly the normalised text — and a whole-body edit whose
proposed text normalises to the stored body is treated as unchanged: without
the force flag it returns False and leaves the store untouched.  (Because the
pass is not iterated, the normalised text — and hence a stored body — can
itself still contain a CRLF sequence.) -/
theorem C10_amended :
    (∀ (env : Env) (m3 : Merge3Fn) (s : Store) (self : Page) (content comment : String)
        (base : Nat) (user : Option String) (force dcr dd : Bool) (fuel : Nat),
      updateContent env m3 s self content base comment user force dcr dd PartialMode.all fuel =
        updateContentAll env m3 s self (crlfStr content) base comment user force dcr dd fuel) ∧
    (∀ (env : Env) (m3 : Merge3Fn) (s : Store) (self : Page) (content comment : String)
        (base : Nat) (user : Option String) (dcr dd : Bool) (fuel : Nat),
      crlfStr content = self.body →
      updateContent env m3 s self content base comment user false dcr dd PartialMode.all fuel =
        some (Except.ok (false, s))) := by
  constructor
  · intro env m3 s self content comment base user force dcr dd fuel
    rfl
  · intro env m3 s self content comment base user dcr dd fuel hsame
    show updateContentAll env m3 s self (crlfStr content) base comment user false dcr dd fuel =
      some (Except.ok (false, s))
    unfold updateContentAll
    rw [if_pos ⟨Bool.false_ne_true, hsame.symm⟩]

/-- Witness for C10_amended: a body proposed with a CRLF line ending
normalises to the stored body and the call reports no change. -/
theorem C10_amended_witness :
    updateContent testEnv m3id storeX { pageX with body := "a\nb" } "a\r\nb" 1 "" none
        false false false PartialMode.all 1 =
      some (Except.ok (false, storeX)) :=
  C10_amended.2 testEnv m3id storeX { pageX with body := "a\nb" } "a\r\nb" "" 1 none
    false false 1 (by decide)

/-- Claim C1 counterexample: a whole-body update at the current revision with
proposed body containing a CRLF succeeds and stores the LF-normalised text —
not byte-for-byte the proposed body. -/
theorem C1_counterexample :
    ((updateContent testEnv m3id storeX pageX "a\r\nb" 1 "" none false false false
        PartialMode.all 1).map
      (Except.map (fun r => (r.1, (getByTitle r.2 "X").body))) =
      some (Except.ok (true, "a\nb"))) ∧ ("a\nb" : String) ≠ "a\r\nb" := by
  constructor
  · decide
  · decide

/-- Claim C1 (amended): a whole-body update_content call whose stated base
revision equals the page's current revision never invokes the three-way merge
— the result is independent of the merge collaborator — and on success the
stored body is byte-for-byte the proposed body with each CRLF replaced by LF
(hence byte-for-byte the proposed body whenever it contains no CRLF). -/
theorem C1_amended (env : Env) (m3 m3b : Merge3Fn) (s : Store) (self : Page)
    (content comment : String) (user : Option String) (force dcr : Bool) (fuel : Nat)
    (hstored : lookupStr s.pages self.title = some self) :
    (updateContent env m3b s self content self.revision comment user force dcr false
        PartialMode.all fuel =
      updateContent env m3 s self content self.revision comment user force dcr false
        PartialMode.all fuel) ∧
    (∀ b s2, updateContent env m3 s self content self.revision comment user force dcr false
        PartialMode.all fuel = some (Except.ok (b, s2)) →
      (getByTitle s2 self.title).body = crlfStr content) := by
  constructor
  · show updateContentAll env m3b s self (crlfStr content) self.revision comment user force
        dcr false fuel =
      updateContentAll env m3 s self (crlfStr content) self.revision comment user force
        dcr false fuel
    unfold updateContentAll
    rw [mergeIfNeeded_self, mergeIfNeeded_self]
  · intro b s2 h
    exact updateContentAll_body env m3 s self (crlfStr content) comment user force dcr fuel
      hstored b s2 h

/-- Witness for C1_amended: the concrete store, with both a trivial and a
conflict-reporting merge collaborator; the update is merge-independent and
stores the normalised body. -/
theorem C1_amended_witness :
    (updateContent testEnv m3conflict storeX pageX "a\r\nb" 1 "" none false false false
        PartialMode.all 1 =
      updateContent testEnv m3id storeX pageX "a\r\nb" 1 "" none false false false
        PartialMode.all 1) ∧
    (∀ b s2, updateContent testEnv m3id storeX pageX "a\r\nb" 1 "" none false false false
        PartialMode.all 1 = some (Except.ok (b, s2)) →
      (getByTitle s2 "X").body = crlfStr "a\r\nb") :=
  C1_amended testEnv m3id m3conflict storeX pageX "a\r\nb" "" none false false 1 (by decide)

/-- Claim C2: an edit against a stale base revision whose three-way merge
leaves a conflict marker fails with `ConflictError('Conflicted', ancestor,
proposed, merged)` — the ancestor text, the proposed text and the
merged-with-markers text — and the call returns before the cache-invalidation
and store-mutation steps, so the stored body, revision and revision history
are unchanged (the error return carries no store). -/
theorem C2_conflict (env : Env) (m3 : Merge3Fn) (s : Store) (self : Page)
    (body comment : String) (base : Nat) (user : Option String)
    (force dcr dd : Bool) (fuel : Nat) (vd : SData × Meta) (bbRec : RevRecord)
    (hchanged : force = true ∨ self.body ≠ body)
    (hval : validateNewContent env s self base body user fuel = some (Except.ok vd))
    (hstale : self.revision ≠ base)
    (hbase : lookupRevision s self.title base = some bbRec)
    (hconf : hasConflictMarker (m3 bbRec.body self.body body) = true) :
    updateContentAll env m3 s self body base comment user force dcr dd fuel =
      some (Except.error
        (WikiErr.conflict "Conflicted" bbRec.body body (m3 bbRec.body self.body body))) := by
  unfold updateContentAll
  rw [if_neg]
  · rw [hval]
    simp only [resM]
    unfold mergeIfNeeded
    rw [if_neg hstale, hbase]
    simp only [hconf, if_true]
  · intro hcontra
    cases hchanged with
    | inl hf => rw [hf] at hcontra; exact hcontra.1 rfl
    | inr hb => exact hb hcontra.2

/-- Witness for C2_conflict: page Y at revision 2 edited against base revision
1 with a merge collaborator that reports a conflict region. -/
theorem C2_conflict_witness :
    updateContentAll testEnv m3conflict storeX pageY "theirs" 1 "" none false false false 1 =
      some (Except.error (WikiErr.conflict "Conflicted" "ancestor" "theirs"
        (m3conflict "ancestor" "mine" "theirs"))) :=
  C2_conflict testEnv m3conflict storeX pageY "theirs" "" 1 none false false false 1
    ([], testMeta)
    { title := "Y", body := "ancestor", revision := 1, created_at := some 1,
      comment := "", modifier := none, acl_read := "", acl_write := "" }
    (Or.inr (by decide)) (by decide) (by decide) (by decide) (by decide)

/-- Claim C7 counterexample: a proposed body whose only invalid structured
data sits inside a list-valued property passes validation — the top-level
value is a Python `list`, not an `InvalidProperty` — and the edit is applied,
contradicting the claim that any Invalid element is rejected. -/
theorem C7_counterexample :
    (parseData testEnv "X" "lst" "Thing" =
      Except.ok [("author", PVal.plist [SPropVal.invalidS "Invalid" (RawVal.s "maybe")])]) ∧
    validateNewContent testEnv storeX pageX 1 "lst" none 1 =
      some (Except.ok
        ([("author", PVal.plist [SPropVal.invalidS "Invalid" (RawVal.s "maybe")])], testMeta)) ∧
    (updateContent testEnv m3id storeX pageX "lst" 1 "" none false false false
        PartialMode.all 1).map (Except.map Prod.fst) = some (Except.ok true) := by
  refine ⟨by decide, by decide, by decide⟩

/-- Claim C7 (amended): when the proposed body's structured data contains a
top-level Invalid property (an unconvertible scalar or an unknown property,
not an Invalid element hidden inside a list) and the edit passes the ACL and
redirect checks, validation fails with a ValueError naming every offending
key at once, and the whole update returns that error before any mutation of
page, revision history or caches (the error return carries no store). -/
theorem C7_amended (env : Env) (s : Store) (self : Page) (base : Nat) (body : String)
    (user : Option String) (fuel : Nat) (nd : SData) (p0 : Page)
    (hread : env.canRead user (splitAcl (env.parseMetadata body).readAcl)
      (splitAcl (env.parseMetadata body).writeAcl) = true)
    (hwrite : env.canWrite user (splitAcl (env.parseMetadata body).readAcl)
      (splitAcl (env.parseMetadata body).writeAcl) = true)
    (hredir : followRedirect env s self (env.parseMetadata body).redirect fuel =
      some (Except.ok p0))
    (hdata : parseData env self.title body (env.parseMetadata body).schemaName = Except.ok nd)
    (hinv : nd.any (fun e => isTopInvalid e.2) = true) :
    validateNewContent env s self base body user fuel =
      some (Except.error (WikiErr.valueError
        ("Invalid schema data: " ++ String.intercalate ", " (invalidKeys nd)))) ∧
    (∀ (m3 : Merge3Fn) (comment : String) (force dcr dd : Bool),
      (force = true ∨ self.body ≠ body) →
      updateContentAll env m3 s self body base comment user force dcr dd fuel =
        some (Except.error (WikiErr.valueError
          ("Invalid schema data: " ++ String.intercalate ", " (invalidKeys nd))))) := by
  have hv : validateNewContent env s self base body user fuel =
      some (Except.error (WikiErr.valueError
        ("Invalid schema data: " ++ String.intercalate ", " (invalidKeys nd)))) := by
    unfold validateNewContent
    rw [if_neg (by rw [hread]; exact fun hh => hh rfl)]
    rw [if_neg (by rw [hwrite]; exact fun hh => hh rfl)]
    rw [hredir]
    simp only [resM]
    rw [hdata]
    dsimp only
    rw [if_pos hinv]
  refine ⟨hv, ?_⟩
  intro m3 comment force dcr dd hchanged
  unfold updateContentAll
  rw [if_neg]
  · rw [hv]
    simp [resM]
  · intro hcontra
    cases hchanged with
    | inl hf => rw [hf] at hcontra; exact hcontra.1 rfl
    | inr hb => exact hb hcontra.2

/-- Witness for C7_amended: the body `"bad"` carries a scalar `author` value
rejected by the Boolean range, so the edit is refused naming `author`. -/
theorem C7_amended_witness :
    validateNewContent testEnv storeX pageX 1 "bad" none 1 =
      some (Except.error (WikiErr.valueError
        ("Invalid schema data: " ++ String.intercalate ", "
          (invalidKeys [("author", PVal.single (SPropVal.invalidS "Invalid" (RawVal.s "maybe")))])))) ∧
    (∀ (m3 : Merge3Fn) (comment : String) (force dcr dd : Bool),
      (force = true ∨ pageX.body ≠ "bad") →
      updateContentAll testEnv m3 storeX pageX "bad" 1 comment none force dcr dd 1 =
        some (Except.error (WikiErr.valueError
          ("Invalid schema data: " ++ String.intercalate ", "
            (invalidKeys [("author", PVal.single (SPropVal.invalidS "Invalid" (RawVal.s "maybe")))]))))) :=
  C7_amended testEnv storeX pageX 1 "bad" none 1
    [("author", PVal.single (SPropVal.invalidS "Invalid" (RawVal.s "maybe")))] pageX
    (by decide) (by decide) (by decide) (by decide) (by decide)

/-- The B ↔ C cycle is never detected from trail `["A"]`: the loop body runs
out of any amount of fuel without returning and without raising, because the
trail is never extended past the starting title. -/
theorem followLoop_BC_diverges : ∀ fuel : Nat,
    followLoop redirEnv storeR ["A"] none (getByTitle storeR "B") fuel = none ∧
    followLoop redirEnv storeR ["A"] none (getByTitle storeR "C") fuel = none := by
  intro fuel
  induction fuel with
  | zero => exact ⟨rfl, rfl⟩
  | succ n ih =>
    constructor
    · show followLoop redirEnv storeR ["A"] none (getByTitle storeR "C") n = none
      exact ih.2
    · show followLoop redirEnv storeR ["A"] none (getByTitle storeR "B") n = none
      exact ih.1

/-- Claim C6 (code bug): `_follow_redirect` initialises the visited trail with
the starting title but never extends it inside the loop (lines 806-819).  On a
redirect chain whose cycle does not pass through the starting page
(A → B → C → B → …) resolution loops forever — at every fuel the loop is
still running, and no circular-redirect error is ever raised.  A cycle that
does return to the starting title is still caught, confirming that the trail
was intended as visited-title tracking. -/
theorem C6_code_bug :
    (∀ fuel : Nat,
      followRedirect redirEnv storeR (getByTitle storeR "A") none fuel = none) ∧
    followRedirect redirEnv storeR (getByTitle storeR "D") none 2 =
      some (Except.error (WikiErr.valueError "Circular redirection detected")) := by
  constructor
  · intro fuel
    cases fuel with
    | zero => rfl
    | succ n =>
      show followLoop redirEnv storeR ["A"] none (getByTitle storeR "B") n = none
      exact (followLoop_BC_diverges n).1
  · decide

/-- Claim C9: wikiquery expression evaluation computes binary `*` as set
intersection and binary `+` as set union of the operand title sets (both
operands evaluated first, as in the source), raises `ValueError` for any
other operator, and the title list the caller receives from wikiquery is
exactly the evaluated title set intersected with the titles the requesting
identity is permitted to read. -/
theorem C9_query (env : Env) (fuel : Nat) :
    (∀ (d : DataIndex) (x : QTree) (r0 : QTree) (rtail : List QTree) (p1 p2 : List String),
      evalTree env d fuel x = some (Except.ok p1) →
      evalPagesL env d fuel (r0 :: rtail) = some (Except.ok p2) →
      (evalPagesL env d fuel (x :: QTree.leaf "*" :: r0 :: rtail) =
          some (Except.ok (interTitles p1 p2)) ∧
       evalPagesL env d fuel (x :: QTree.leaf "+" :: r0 :: rtail) =
          some (Except.ok (unionTitles p1 p2)) ∧
       (∀ op, op ≠ "*" → op ≠ "+" →
         evalPagesL env d fuel (x :: QTree.leaf op :: r0 :: rtail) =
           some (Except.error (WikiErr.valueError ("Invalid operator: " ++ op)))))) ∧
    (∀ (a b : List String) (t : String),
      (t ∈ interTitles a b ↔ t ∈ a ∧ t ∈ b) ∧
      (t ∈ unionTitles a b ↔ t ∈ a ∨ t ∈ b)) ∧
    (∀ (s : Store) (q : List QTree) (user : Option String) (titles res : List String),
      evalPagesL env s.dataIndex fuel q = some (Except.ok titles) →
      wikiqueryTitles env s q user fuel = some (Except.ok res) →
      ∀ t, t ∈ res ↔ (t ∈ getTitles env s user ∧ t ∈ titles)) := by
  refine ⟨?_, ?_, ?_⟩
  · intro d x r0 rtail p1 p2 h1 h2
    have hstep : ∀ op : String,
        evalPagesL env d fuel (x :: QTree.leaf op :: r0 :: rtail) =
          (if op = "*" then some (Except.ok (interTitles p1 p2))
           else if op = "+" then some (Except.ok (unionTitles p1 p2))
           else some (Except.error (WikiErr.valueError ("Invalid operator: " ++ op)))) := by
      intro op
      simp only [evalPagesL]
      rw [h1]
      simp only [resM]
      rw [h2]
    refine ⟨?_, ?_, ?_⟩
    · rw [hstep]
      simp
    · rw [hstep]
      simp
    · intro op hs hp
      rw [hstep, if_neg hs, if_neg hp]
  · intro a b t
    constructor
    · simp [interTitles]
    · constructor
      · intro h
        rcases List.mem_append.mp h with h | h
        · exact Or.inl h
        · exact Or.inr (List.mem_filter.mp h).1
      · intro h
        by_cases ha : t ∈ a
        · exact List.mem_append.mpr (Or.inl ha)
        · rcases h with h | h
          · exact absurd h ha
          · exact List.mem_append.mpr (Or.inr (List.mem_filter.mpr ⟨h, by simp [ha]⟩))
  · intro s q user titles res hq hw t
    unfold wikiqueryTitles at hw
    rw [hq] at hw
    simp only [resM, Option.some.injEq] at hw
    have hres : res = sortStrings ((getTitles env s user).filter (fun t => t ∈ titles)) := by
      cases hw
      rfl
    subst hres
    unfold sortStrings
    rw [(List.perm_insertionSort (fun a b => strLe a b = true)
      ((getTitles env s user).filter (fun t => t ∈ titles))).mem_iff]
    simp

/-- Witness for C9_query with a concrete two-entry inverted index: `*` yields
the intersection, and the readable-title filter applies to the final result. -/
theorem C9_query_witness :
    evalPagesL qEnv [] 1
        (QTree.node [QTree.leaf "author", QTree.leaf "5"] :: QTree.leaf "*" ::
          QTree.node [QTree.leaf "author", QTree.leaf "6"] :: []) =
      some (Except.ok (interTitles ["a", "b"] ["b", "c"])) :=
  ((C9_query qEnv 1).1 []
    (QTree.node [QTree.leaf "author", QTree.leaf "5"])
    (QTree.node [QTree.leaf "author", QTree.leaf "6"]) [] ["a", "b"] ["b", "c"]
    (by decide) (by decide)).1

/-- Membership in the capped table implies membership in the uncapped one. -/
theorem mem_cap30 {x : String × Score} {l : List (String × Score)} (h : x ∈ cap30 l) :
    x ∈ l := by
  unfold cap30 at h
  split at h
  · exact (List.perm_insertionSort (fun a b : String × Score => a.2 ≤ b.2) l).subset
      (List.drop_subset _ _ h)
  · exact h

/-- Membership in the rescaled table reflects to some score in the capped one. -/
theorem mem_rescale {x : String × Score} {l : List (String × Score)} (h : x ∈ rescale l) :
    ∃ v, (x.1, v) ∈ l := by
  unfold rescale at h
  split at h
  · rcases List.mem_map.mp h with ⟨e, he, hx⟩
    exact ⟨e.2, by rw [← hx]; exact he⟩
  · exact ⟨x.2, h⟩

/-- Dividing every score divides the sum. -/
theorem sum_map_rescale (l : List (String × Score)) (c : Score) :
    ((l.map (fun e => (e.1, e.2 / c))).map Prod.snd).sum = ((l.map Prod.snd).sum) / c := by
  induction l with
  | nil => simp
  | cons a rest ih =>
    simp only [List.map_cons, List.sum_cons, ih]
    rw [add_div]

/-- Claim C4: after normalize_related_links, the related-score table contains
no title that is also a direct in- or out-link of the page; it has at most 30
entries, and the entries kept by the cap are (weakly) the highest-scoring
ones of the direct-link-filtered table; and the sum of the stored scores is
at most 1 (every score having been divided by the total when the total
exceeded 1). -/
theorem C4_normalize (p : Page) :
    ((normalizeRelated p).length ≤ 30) ∧
    (∀ t v, (t, v) ∈ normalizeRelated p → t ∉ directLinksOf p) ∧
    (∀ t v, (t, v) ∈ cap30 (filterDirect p) →
      ∀ u w, (u, w) ∈ filterDirect p → u ∉ (cap30 (filterDirect p)).map Prod.fst → w ≤ v) ∧
    (((normalizeRelated p).map Prod.snd).sum ≤ 1) := by
  refine ⟨?_, ?_, ?_, ?_⟩
  · show (rescale (cap30 (filterDirect p))).length ≤ 30
    have hlen : (cap30 (filterDirect p)).length ≤ 30 := by
      unfold cap30
      split
      · rename_i hgt
        rw [List.length_drop, List.length_insertionSort]
        omega
      · rename_i hle
        omega
    unfold rescale
    split
    · rw [List.length_map]
      exact hlen
    · exact hlen
  · intro t v hmem
    rcases mem_rescale hmem with ⟨w, hw⟩
    have hf : (t, w) ∈ filterDirect p := mem_cap30 hw
    have := List.mem_filter.mp hf
    simpa using this.2
  · intro t v hv u w hu hunot
    unfold cap30 at hv hunot
    by_cases hgt : 30 < (filterDirect p).length
    · rw [if_pos hgt] at hv hunot
      set sorted := List.insertionSort (fun a b : String × Score => a.2 ≤ b.2) (filterDirect p)
        with hsorted
      set k := (filterDirect p).length - 30 with hk
      have hperm := List.perm_insertionSort (fun a b : String × Score => a.2 ≤ b.2)
        (filterDirect p)
      have husort : (u, w) ∈ sorted := hperm.mem_iff.mpr hu
      have hutake : (u, w) ∈ sorted.take k := by
        rcases List.mem_append.mp ((List.take_append_drop k sorted) ▸ husort) with h | h
        · exact h
        · exact absurd (List.mem_map.mpr ⟨(u, w), h, rfl⟩) hunot
      letI : IsTotal (String × Score) (fun a b => a.2 ≤ b.2) := ⟨fun a b => le_total a.2 b.2⟩
      letI : IsTrans (String × Score) (fun a b => a.2 ≤ b.2) :=
        ⟨fun _ _ _ hab hbc => le_trans hab hbc⟩
      have hsortpw : List.Pairwise (fun a b : String × Score => a.2 ≤ b.2) sorted :=
        List.sorted_insertionSort (fun a b : String × Score => a.2 ≤ b.2) (filterDirect p)
      have hsplit := (List.take_append_drop k sorted) ▸ hsortpw
      rcases List.pairwise_append.mp hsplit with ⟨_, _, hcross⟩
      exact hcross (u, w) hutake (t, v) hv
    · rw [if_neg hgt] at hv hunot
      exact absurd (List.mem_map.mpr ⟨(u, w), hu, rfl⟩) hunot
  · show ((rescale (cap30 (filterDirect p))).map Prod.snd).sum ≤ 1
    unfold rescale
    split
    · rename_i hgt
      rw [sum_map_rescale, div_self (ne_of_gt (lt_trans zero_lt_one hgt))]
    · rename_i hle
      exact le_of_not_lt hle

/-- Witness for C4_normalize: on `pageW` the direct link `s` is dropped from
the related table while `r` survives, and `r` is indeed not a direct link. -/
theorem C4_normalize_memW : ("r", (1 : Score)) ∈ normalizeRelated pageW := by
  have hd1 : (!decide (("r" : String) = "s")) = true := rfl
  have hd2 : (!decide (("s" : String) = "s")) = false := rfl
  norm_num [normalizeRelated, rescale, cap30, filterDirect, directLinksOf, pageW,
    defaultPage, List.filter, hd1, hd2]

theorem C4_normalize_witness :
    (("r", (1 : Score)) ∈ normalizeRelated pageW) ∧ ("r" ∉ directLinksOf pageW) :=
  ⟨C4_normalize_memW, (C4_normalize pageW).2.1 "r" 1 C4_normalize_memW⟩

/-- Writing a key into an association list makes it readable. -/
theorem lookupStr_assocSet_self {β : Type} (m : List (String × β)) (k : String) (v : β) :
    lookupStr (assocSet m k v) k = some v := by
  induction m with
  | nil => simp [assocSet, lookupStr]
  | cons e rest ih =>
    obtain ⟨k0, v0⟩ := e
    by_cases hk : k0 = k
    · simp [assocSet, hk, lookupStr]
    · simp only [assocSet, hk, if_false, lookupStr]
      exact ih

/-- Claim C5 counterexample: in the related-link random walk started at score
0.1, the first hop's target `B` is recorded with score 0.1 * 0.5 = 0.05, not
with the claimed 0.1 — the source halves the score before writing it
(`next_score = score * 0.5; score_table[next_link] = next_score`). -/
theorem C5_counterexample :
    relatedWalk testEnv 1 "O" storeW pageO (1 / 10) [] 5 [0] =
      some (Except.ok (true, [("B", (1 / 10 : Score) * (1 / 2))], storeW)) ∧
    ((1 / 10 : Score) * (1 / 2) = 1 / 20) ∧ ¬ ((1 / 10 : Score) * (1 / 2) = 1 / 10) :=
  ⟨rfl, by norm_num, by norm_num⟩

/-- Claim C5 (amended): at each hop of the walk (hops remaining and an
eligible target chosen), the incoming score is halved first and the halved
score is written — overwriting any previous value — as the chosen target's
entry in the origin's score table; the walk then recurses to the target with
the halved score and one less remaining hop, and the hop reports an update.
Consequently a fresh table records the first hop's target with 0.05, the
second with 0.025, and so on (later revisits overwrite). -/
theorem C5_amended (env : Env) (fuel : Nat) (startTitle : String) (s : Store) (page : Page)
    (score : Score) (table : List (String × Score)) (d : Nat) (picks : List Nat) (np : Page)
    (hlinks : walkEligible startTitle page ≠ [])
    (hnext : getByTitleFollow env s (walkChosen startTitle page picks) fuel =
      some (Except.ok np)) :
    (relatedWalk env fuel startTitle s page score table (d + 1) picks =
      resM (relatedWalk env fuel startTitle
          (walkTouchTarget s startTitle np (score * (1 / 2)))
          np (score * (1 / 2))
          (assocSet (walkTable1 table np.title) np.title (score * (1 / 2))) d picks.tail)
        (fun r => some (Except.ok (true, r.2.1, r.2.2)))) ∧
    lookupStr (assocSet (walkTable1 table np.title) np.title (score * (1 / 2))) np.title =
      some (score * (1 / 2)) := by
  constructor
  · simp only [relatedWalk]
    rw [if_neg (fun h => hlinks (List.length_eq_zero.mp h))]
    rw [hnext]
    simp only [resM]
  · exact lookupStr_assocSet_self (walkTable1 table np.title) np.title (score * (1 / 2))

/-- Witness for C5_amended at the concrete one-link store: the first hop
from O records B at exactly half the seed score. -/
theorem C5_amended_witness :
    (relatedWalk testEnv 1 "O" storeW pageO (1 / 10) [] 5 [0] =
      resM (relatedWalk testEnv 1 "O"
          (walkTouchTarget storeW "O" (defaultPage "B") ((1 / 10 : Score) * (1 / 2)))
          (defaultPage "B") ((1 / 10 : Score) * (1 / 2))
          (assocSet (walkTable1 [] (defaultPage "B").title) (defaultPage "B").title
            ((1 / 10 : Score) * (1 / 2))) 4 ([0] : List Nat).tail)
        (fun r => some (Except.ok (true, r.2.1, r.2.2)))) ∧
    lookupStr (assocSet (walkTable1 [] (defaultPage "B").title) (defaultPage "B").title
        ((1 / 10 : Score) * (1 / 2))) (defaultPage "B").title =
      some ((1 / 10 : Score) * (1 / 2)) :=
  C5_amended testEnv 1 "O" storeW pageO (1 / 10) [] 4 [0] (defaultPage "B")
    (by decide) (by decide)

/-- A successful lookup names a list entry. -/
theorem lookupStr_mem {β : Type} : ∀ (m : List (String × β)) (k : String) (v : β),
    lookupStr m k = some v → (k, v) ∈ m := by
  intro m
  induction m with
  | nil => intro k v h; exact Option.noConfusion h
  | cons e rest ih =>
    intro k v h
    obtain ⟨k0, v0⟩ := e
    by_cases hk : k0 = k
    · subst hk
      have hv : some v0 = some v := by simpa [lookupStr] using h
      injection hv with hv
      subst hv
      exact List.mem_cons_self ..
    · simp only [lookupStr, hk, if_false] at h
      exact List.mem_cons_of_mem _ (ih k v h)

/-- With duplicate-free keys, membership determines the lookup. -/
theorem lookupStr_of_mem_nodup {β : Type} : ∀ (m : List (String × β)) (k : String) (v : β),
    (m.map Prod.fst).Nodup → (k, v) ∈ m → lookupStr m k = some v := by
  intro m
  induction m with
  | nil => intro k v _ h; exact absurd h (List.not_mem_nil _)
  | cons e rest ih =>
    intro k v hnd hm
    obtain ⟨k0, v0⟩ := e
    rcases List.mem_cons.mp hm with h | h
    · injection h with h1 h2
      subst h1
      subst h2
      simp [lookupStr]
    · have hk : k0 ≠ k := by
        intro he
        subst he
        have : k0 ∈ rest.map Prod.fst := List.mem_map.mpr ⟨(k0, v), h, rfl⟩
        exact (List.nodup_cons.mp (by simpa using hnd)).1 this
      simp only [lookupStr, hk, if_false]
      exact ih k v (List.nodup_cons.mp (by simpa using hnd)).2 h

/-- Lookup through an entry-wise map of the values. -/
theorem lookupStr_mapEntry {β γ : Type} (f : String → β → γ) :
    ∀ (m : List (String × β)) (k : String),
    lookupStr (m.map (fun e => (e.1, f e.1 e.2))) k = (lookupStr m k).map (f k) := by
  intro m
  induction m with
  | nil => intro k; rfl
  | cons e rest ih =>
    intro k
    obtain ⟨k0, v0⟩ := e
    by_cases hk : k0 = k
    · subst hk
      simp [lookupStr]
    · simp only [List.map_cons, lookupStr, hk, if_false]
      exact ih k

/-- Writing one key leaves the other keys unchanged. -/
theorem lookupStr_assocSet_other {β : Type} : ∀ (m : List (String × β)) (k k2 : String) (v : β),
    k2 ≠ k → lookupStr (assocSet m k v) k2 = lookupStr m k2 := by
  intro m
  induction m with
  | nil => intro k k2 v hne; simp [assocSet, lookupStr, Ne.symm hne]
  | cons e rest ih =>
    intro k k2 v hne
    obtain ⟨k0, v0⟩ := e
    by_cases hk : k0 = k
    · subst hk
      simp [assocSet, lookupStr, Ne.symm hne]
    · simp only [assocSet, hk, if_false, lookupStr]
      by_cases hk2 : k0 = k2
      · simp [hk2]
      · simp only [hk2, if_false]
        exact ih k k2 v hne

/-- Deleting a key makes it unreadable. -/
theorem lookupStr_assocDel_self {β : Type} : ∀ (m : List (String × β)) (k : String),
    lookupStr (assocDel m k) k = none := by
  intro m
  induction m with
  | nil => intro k; rfl
  | cons e rest ih =>
    intro k
    obtain ⟨k0, v0⟩ := e
    by_cases hk : k0 = k
    · subst hk
      simpa [assocDel, lookupStr] using ih k0
    · simpa [assocDel, lookupStr, hk] using ih k

/-- Deleting a key leaves the other keys unchanged. -/
theorem lookupStr_assocDel_other {β : Type} : ∀ (m : List (String × β)) (k k2 : String),
    k2 ≠ k → lookupStr (assocDel m k) k2 = lookupStr m k2 := by
  intro m
  induction m with
  | nil => intro k k2 _; rfl
  | cons e rest ih =>
    intro k k2 hne
    obtain ⟨k0, v0⟩ := e
    show lookupStr (((k0, v0) :: rest).filter (fun e => e.1 ≠ k)) k2 = _
    rw [List.filter_cons]
    by_cases hk : k0 = k
    · rw [if_neg (by simp [hk])]
      show lookupStr (assocDel rest k) k2 = _
      rw [ih k k2 hne]
      show _ = if k0 = k2 then some v0 else lookupStr rest k2
      rw [if_neg (fun (h : k0 = k2) => hne (h ▸ hk))]
    · rw [if_pos (by simp [hk])]
      show (if k0 = k2 then some v0 else lookupStr (assocDel rest k) k2) =
        if k0 = k2 then some v0 else lookupStr rest k2
      by_cases hk2 : k0 = k2
      · simp [hk2]
      · simp only [hk2, if_false]
        exact ih k k2 hne

/-- Sorting a title list preserves membership. -/
theorem mem_sortStrings {x : String} {l : List String} : x ∈ sortStrings l ↔ x ∈ l :=
  (List.perm_insertionSort (fun a b => strLe a b = true) l).mem_iff

/-- An assoc-list write yields the written entry or an old one. -/
theorem mem_assocSet {β : Type} : ∀ {m : List (String × β)} {k : String} {v : β} {e},
    e ∈ assocSet m k v → e = (k, v) ∨ e ∈ m := by
  intro m
  induction m with
  | nil => intro k v e h; simpa [assocSet] using h
  | cons e0 rest ih =>
    intro k v e h
    obtain ⟨k0, v0⟩ := e0
    by_cases hk : k0 = k
    · simp only [assocSet, hk, if_pos rfl] at h
      rcases List.mem_cons.mp h with h | h
      · exact Or.inl h
      · exact Or.inr (List.mem_cons_of_mem _ h)
    · simp only [assocSet, hk, if_false] at h
      rcases List.mem_cons.mp h with h | h
      · exact Or.inr (h ▸ List.mem_cons_self ..)
      · rcases ih h with h | h
        · exact Or.inl h
        · exact Or.inr (List.mem_cons_of_mem _ h)

/-- Adding a title records it under the relation. -/
theorem mem_relAt_addInoutLink_self (m : LinkMap) (t rel : String) :
    t ∈ relAt (addInoutLink m t rel) rel := by
  show t ∈ relAt (addInoutLinks m [t] rel) rel
  unfold addInoutLinks
  rw [if_neg (by simp)]
  unfold relAt
  rw [lookupStr_assocSet_self]
  simp [mem_sortStrings]

/-- Adding a title under one relation leaves the other relations unchanged. -/
theorem relAt_addInoutLink_ne (m : LinkMap) (t rel r2 : String) (h : r2 ≠ rel) :
    relAt (addInoutLink m t rel) r2 = relAt m r2 := by
  show relAt (addInoutLinks m [t] rel) r2 = relAt m r2
  unfold addInoutLinks
  rw [if_neg (by simp)]
  unfold relAt
  rw [lookupStr_assocSet_other _ _ _ _ h]

/-- Adding a title never removes recorded titles. -/
theorem mem_relAt_addInoutLink_mono (m : LinkMap) (t rel r2 x : String)
    (h : x ∈ relAt m r2) : x ∈ relAt (addInoutLink m t rel) r2 := by
  by_cases hr : r2 = rel
  · subst hr
    show x ∈ relAt (addInoutLinks m [t] r2) r2
    unfold addInoutLinks
    rw [if_neg (by simp)]
    unfold relAt
    rw [lookupStr_assocSet_self]
    simp only [Option.getD_some, mem_sortStrings]
    exact List.mem_append_left _ h
  · rw [relAt_addInoutLink_ne m t rel r2 hr]
    exact h

/-- Erasing a title from a present relation erases exactly there. -/
theorem relAt_delInoutLink_present_same (m : LinkMap) (x r : String) (l : List String)
    (h : lookupStr m r = some l) : relAt (delInoutLink m x (some r)) r = l.erase x := by
  unfold delInoutLink
  dsimp only
  rw [h]
  dsimp only
  by_cases hz : (l.erase x).length = 0
  · rw [if_pos hz]
    unfold relAt
    rw [lookupStr_assocDel_self]
    simp [List.length_eq_zero.mp hz]
  · rw [if_neg hz]
    unfold relAt
    rw [lookupStr_assocSet_self]
    rfl

/-- Erasing a title from a present relation leaves other relations unchanged. -/
theorem relAt_delInoutLink_present_ne (m : LinkMap) (x r : String) (l : List String)
    (r2 : String) (h : lookupStr m r = some l) (hne : r2 ≠ r) :
    relAt (delInoutLink m x (some r)) r2 = relAt m r2 := by
  unfold delInoutLink
  dsimp only
  rw [h]
  dsimp only
  by_cases hz : (l.erase x).length = 0
  · rw [if_pos hz]
    unfold relAt
    rw [lookupStr_assocDel_other _ _ _ hne]
  · rw [if_neg hz]
    unfold relAt
    rw [lookupStr_assocSet_other _ _ _ _ hne]

/-- The erase-everywhere fallback leaves no trace of the erased title when all
recorded lists are duplicate-free. -/
theorem not_mem_eraseTitleAll (m : LinkMap) (x r2 : String)
    (hnd : ∀ e ∈ m, (e : String × List String).2.Nodup) :
    x ∉ relAt (eraseTitleAll m x) r2 := by
  unfold relAt
  cases h : lookupStr (eraseTitleAll m x) r2 with
  | none => simp
  | some l2 =>
    have hmem := lookupStr_mem _ _ _ h
    unfold eraseTitleAll at hmem
    rcases List.mem_filterMap.mp hmem with ⟨e, he, hfe⟩
    by_cases hz : (e.2.erase x).length = 0
    · simp only [hz, if_pos rfl] at hfe
      exact Option.noConfusion hfe
    · simp only [hz, if_neg hz] at hfe
      injection hfe with hfe
      have hl2 : l2 = e.2.erase x := (congrArg Prod.snd hfe).symm
      rw [hl2]
      simp only [Option.getD_some]
      exact (hnd e he).not_mem_erase

/-- Deleting a title preserves duplicate-freeness of every recorded list. -/
theorem nodup_delInoutLink (m : LinkMap) (x : String) (r : Option String)
    (hnd : ∀ e ∈ m, (e : String × List String).2.Nodup) :
    ∀ e ∈ delInoutLink m x r, (e : String × List String).2.Nodup := by
  have hall : ∀ e ∈ eraseTitleAll m x, (e : String × List String).2.Nodup := by
    intro e he
    unfold eraseTitleAll at he
    rcases List.mem_filterMap.mp he with ⟨e0, he0, hfe⟩
    by_cases hz : (e0.2.erase x).length = 0
    · simp only [hz, if_pos rfl] at hfe
      exact Option.noConfusion hfe
    · simp only [hz, if_neg hz] at hfe
      injection hfe with hfe
      rw [← hfe]
      exact (hnd e0 he0).erase x
  match r with
  | none => exact hall
  | some r =>
    cases hl : lookupStr m r with
    | none =>
      unfold delInoutLink
      dsimp only
      rw [hl]
      exact hall
    | some l =>
      unfold delInoutLink
      dsimp only
      rw [hl]
      dsimp only
      intro e he
      by_cases hz : (l.erase x).length = 0
      · rw [if_pos hz] at he
        exact hnd e (List.mem_of_mem_filter he)
      · rw [if_neg hz] at he
        rcases mem_assocSet he with h | h
        · rw [h]
          exact ((hnd (r, l) (lookupStr_mem _ _ _ hl)).erase x)
        · exact hnd e h

/-- Membership in the flattened (relation, title) pair list. -/
theorem mem_relPairs {m : LinkMap} {rel t : String} :
    (rel, t) ∈ relPairs m ↔ ∃ l, (rel, l) ∈ m ∧ t ∈ l := by
  unfold relPairs
  rw [List.mem_flatten]
  constructor
  · rintro ⟨sub, hsub, hmem⟩
    rcases List.mem_map.mp hsub with ⟨e, he, hfe⟩
    rw [← hfe] at hmem
    rcases List.mem_map.mp hmem with ⟨t0, ht0, hpair⟩
    injection hpair with h1 h2
    exact ⟨e.2, by rw [← h1]; exact (by simpa using he), by rw [← h2]; exact ht0⟩
  · rintro ⟨l, hl, ht⟩
    exact ⟨l.map (fun t0 => (rel, t0)), List.mem_map.mpr ⟨(rel, l), hl, rfl⟩,
      List.mem_map.mpr ⟨t, ht, rfl⟩⟩

/-- A recorded title yields a pair. -/
theorem mem_relPairs_of_relAt {m : LinkMap} {rel t : String} (h : t ∈ relAt m rel) :
    (rel, t) ∈ relPairs m := by
  unfold relAt at h
  cases hl : lookupStr m rel with
  | none => rw [hl] at h; simp at h
  | some l =>
    rw [hl] at h
    exact mem_relPairs.mpr ⟨l, lookupStr_mem _ _ _ hl, by simpa using h⟩

/-- With duplicate-free keys and lists, the pair list is duplicate-free. -/
theorem relPairs_nodup (m : LinkMap) (hk : (m.map Prod.fst).Nodup)
    (hl : ∀ e ∈ m, (e : String × List String).2.Nodup) : (relPairs m).Nodup := by
  unfold relPairs
  rw [List.nodup_flatten]
  constructor
  · intro sub hsub
    rcases List.mem_map.mp hsub with ⟨e, he, hfe⟩
    rw [← hfe]
    exact (hl e he).map (fun a b hab => by injection hab)
  · have hpw : m.Pairwise (fun a b : String × List String => a.1 ≠ b.1) :=
      List.pairwise_map.mp hk
    rw [List.pairwise_map]
    refine hpw.imp ?_
    intro a b hab
    intro x hx hy
    rcases List.mem_map.mp hx with ⟨t1, _, hfe1⟩
    rcases List.mem_map.mp hy with ⟨t2, _, hfe2⟩
    have h12 : ((a.1, t1) : String × String) = (b.1, t2) := hfe1.trans hfe2.symm
    have h1 : a.1 = b.1 := by injection h12
    exact hab h1

/-- Every row written by `pagesSet` is the new entry or an old row. -/
theorem mem_pagesSet : ∀ {ps : List (String × Page)} {p : Page} {e},
    e ∈ pagesSet ps p → e = (p.title, p) ∨ e ∈ ps := by
  intro ps
  induction ps with
  | nil => intro p e h; simpa [pagesSet] using h
  | cons e0 rest ih =>
    intro p e h
    obtain ⟨t0, q0⟩ := e0
    by_cases ht : t0 = p.title
    · simp only [pagesSet, ht, if_pos rfl] at h
      rcases List.mem_cons.mp h with h | h
      · exact Or.inl h
      · exact Or.inr (List.mem_cons_of_mem _ h)
    · simp only [pagesSet, ht, if_false] at h
      rcases List.mem_cons.mp h with h | h
      · exact Or.inr (h ▸ List.mem_cons_self ..)
      · rcases ih h with h | h
        · exact Or.inl h
        · exact Or.inr (List.mem_cons_of_mem _ h)

/-- A title-keyed store stays title-keyed after a page write. -/
theorem wf_putPage {s : Store} (p : Page) (hwf : StoreWF s) : StoreWF (putPage s p) := by
  intro e he
  rcases mem_pagesSet he with h | h
  · rw [h]
  · exact hwf e h

/-- A title-keyed store stays title-keyed after a row deletion. -/
theorem wf_delPage {s : Store} (t : String) (hwf : StoreWF s) : StoreWF (delPage s t) := by
  intro e he
  exact hwf e (List.mem_of_mem_filter he)

/-- Cache invalidation does not touch the page rows. -/
theorem wf_cacheDelPage {s : Store} (t : String) (hwf : StoreWF s) :
    StoreWF (cacheDelPage s t) := fun e he => hwf e he

/-- Under a title-keyed store a fetch carries the requested title. -/
theorem getByTitle_title {s : Store} (t : String) (hwf : StoreWF s) :
    (getByTitle s t).title = t := by
  unfold getByTitle
  cases h : lookupStr s.pages t with
  | none => rfl
  | some p => exact hwf (t, p) (lookupStr_mem _ _ _ h)

/-- A write under a different title leaves a lookup unchanged. -/
theorem lookupStr_pagesSet_ne : ∀ (ps : List (String × Page)) (p : Page) (t : String),
    t ≠ p.title → lookupStr (pagesSet ps p) t = lookupStr ps t := by
  intro ps
  induction ps with
  | nil => intro p t hne; simp [pagesSet, lookupStr, Ne.symm hne]
  | cons e rest ih =>
    intro p t hne
    obtain ⟨t0, q0⟩ := e
    by_cases ht : t0 = p.title
    · subst ht
      simp only [pagesSet, if_pos rfl]
      simp [lookupStr, Ne.symm hne]
    · simp only [pagesSet, ht, if_false]
      by_cases ht2 : t0 = t
      · simp [lookupStr, ht2]
      · simp only [lookupStr, ht2, if_false]
        exact ih p t hne

/-- A fetch of a different title is unchanged by a page write. -/
theorem getByTitle_putPage_ne (s : Store) (p : Page) (t : String) (h : t ≠ p.title) :
    getByTitle (putPage s p) t = getByTitle s t := by
  unfold getByTitle
  show (lookupStr (pagesSet s.pages p) t).getD (defaultPage t) =
    (lookupStr s.pages t).getD (defaultPage t)
  rw [lookupStr_pagesSet_ne s.pages p t h]

/-- Fetching a deleted row yields the placeholder. -/
theorem getByTitle_delPage_self (s : Store) (t : String) :
    getByTitle (delPage s t) t = defaultPage t := by
  unfold getByTitle
  show (lookupStr (assocDel s.pages t) t).getD (defaultPage t) = defaultPage t
  rw [lookupStr_assocDel_self]
  rfl

/-- A fetch of a different title is unchanged by a row deletion. -/
theorem getByTitle_delPage_ne (s : Store) (t t2 : String) (h : t2 ≠ t) :
    getByTitle (delPage s t) t2 = getByTitle s t2 := by
  unfold getByTitle
  show (lookupStr (assocDel s.pages t) t2).getD (defaultPage t2) =
    (lookupStr s.pages t2).getD (defaultPage t2)
  rw [lookupStr_assocDel_other s.pages t t2 h]

/-- Cache invalidation does not affect fetches. -/
theorem getByTitle_cacheDelPage (s : Store) (t t2 : String) :
    getByTitle (cacheDelPage s t) t2 = getByTitle s t2 := rfl

/-- A redirect-free body makes the follow loop return its page unchanged. -/
theorem followLoop_none (env : Env) (s : Store) (trail : List String) (p : Page) (fuel : Nat)
    (henv : ∀ b, (env.parseMetadata b).redirect = none) :
    followLoop env s trail none p fuel = some (Except.ok p) := by
  unfold followLoop
  rw [show ((none : Option String).orElse fun _ => (env.parseMetadata p.body).redirect) = none
    from henv p.body]

/-- With redirect-free metadata, a redirect-following fetch is a plain fetch. -/
theorem getByTitleFollow_eq (env : Env) (s : Store) (t : String) (fuel : Nat)
    (henv : ∀ b, (env.parseMetadata b).redirect = none) :
    getByTitleFollow env s t fuel = some (Except.ok (getByTitle s t)) := by
  unfold getByTitleFollow
  cases h : lookupStr s.pages t with
  | none => simp [getByTitle, h]
  | some p =>
    dsimp only
    unfold followRedirect
    rw [followLoop_none env s [p.title] p fuel henv]
    simp [getByTitle, h]

/-- With redirect-free metadata and a title-keyed store, outlink-target
resolution is the identity. -/
theorem resolveTitle_eq (env : Env) (fuel : Nat) (s : Store) (t : String)
    (henv : ∀ b, (env.parseMetadata b).redirect = none) (hwf : StoreWF s) :
    resolveTitle env fuel s t = some (Except.ok t) := by
  unfold resolveTitle
  rw [getByTitleFollow_eq env s t fuel henv]
  simp only [resM]
  rw [getByTitle_title t hwf]

/-- Identity resolution over a whole title list. -/
theorem mapResList_resolve (env : Env) (fuel : Nat) (s : Store)
    (henv : ∀ b, (env.parseMetadata b).redirect = none) (hwf : StoreWF s) :
    ∀ ts : List String, mapResList (resolveTitle env fuel s) ts = some (Except.ok ts) := by
  intro ts
  induction ts with
  | nil => rfl
  | cons t rest ih =>
    unfold mapResList
    rw [resolveTitle_eq env fuel s t henv hwf]
    simp only [resM]
    rw [ih]

/-- With redirect-free metadata the resolved outlinks are the parsed outlinks
with each title list de-duplicated. -/
theorem resolveOutlinks_eq (env : Env) (fuel : Nat) (s : Store)
    (henv : ∀ b, (env.parseMetadata b).redirect = none) (hwf : StoreWF s) :
    ∀ m : LinkMap, resolveOutlinks env fuel s m =
      some (Except.ok (m.map (fun e => (e.1, e.2.dedup)))) := by
  intro m
  induction m with
  | nil => rfl
  | cons e rest ih =>
    obtain ⟨rel, ts⟩ := e
    unfold resolveOutlinks
    rw [mapResList_resolve env fuel s henv hwf ts]
    simp only [resM]
    rw [ih]
    simp only [resM, List.map_cons]

/-- Unfolding the added-edges diff one entry. -/
theorem computeAdded_cons (e : String × List String) (n c : LinkMap) :
    computeAdded (e :: n) c =
      (match lookupStr c e.1 with
        | some cs => (e.1, e.2.filter (fun t => t ∉ cs))
        | none => e) :: computeAdded n c := rfl

/-- Unfolding the removed-edges diff one entry. -/
theorem computeRemoved_cons (e : String × List String) (c n : LinkMap) :
    computeRemoved (e :: c) n =
      (match lookupStr n e.1 with
        | some ns => (e.1, e.2.filter (fun t => t ∉ ns))
        | none => e) :: computeRemoved c n := rfl

/-- Lookup through the added diff when the relation is absent from the old map. -/
theorem lookupStr_computeAdded_none : ∀ (n c : LinkMap) (k : String),
    lookupStr c k = none →
    lookupStr (computeAdded n c) k = lookupStr n k := by
  intro n
  induction n with
  | nil => intro c k _; rfl
  | cons e rest ih =>
    intro c k hc
    obtain ⟨r0, l0⟩ := e
    rw [computeAdded_cons]
    by_cases hk : r0 = k
    · subst hk
      rw [hc]
      dsimp only
      simp [lookupStr]
    · cases hm : lookupStr c r0 with
      | none =>
        dsimp only
        simp only [lookupStr, hk, if_false]
        exact ih c k hc
      | some cs =>
        dsimp only
        simp only [lookupStr, hk, if_false]
        exact ih c k hc

/-- Lookup through the added diff when the relation is present in the old map. -/
theorem lookupStr_computeAdded_some : ∀ (n c : LinkMap) (k : String) (cs : List String),
    lookupStr c k = some cs →
    lookupStr (computeAdded n c) k =
      (lookupStr n k).map (fun v => v.filter (fun t => t ∉ cs)) := by
  intro n
  induction n with
  | nil => intro c k cs _; rfl
  | cons e rest ih =>
    intro c k cs hc
    obtain ⟨r0, l0⟩ := e
    rw [computeAdded_cons]
    by_cases hk : r0 = k
    · subst hk
      rw [hc]
      dsimp only
      simp [lookupStr]
    · cases hm : lookupStr c r0 with
      | none =>
        dsimp only
        simp only [lookupStr, hk, if_false]
        exact ih c k cs hc
      | some cs0 =>
        dsimp only
        simp only [lookupStr, hk, if_false]
        exact ih c k cs hc

/-- Lookup through the removed diff when the relation is absent from the new map. -/
theorem lookupStr_computeRemoved_none : ∀ (c n : LinkMap) (k : String),
    lookupStr n k = none →
    lookupStr (computeRemoved c n) k = lookupStr c k := by
  intro c
  induction c with
  | nil => intro n k _; rfl
  | cons e rest ih =>
    intro n k hn
    obtain ⟨r0, l0⟩ := e
    rw [computeRemoved_cons]
    by_cases hk : r0 = k
    · subst hk
      rw [hn]
      dsimp only
      simp [lookupStr]
    · cases hm : lookupStr n r0 with
      | none =>
        dsimp only
        simp only [lookupStr, hk, if_false]
        exact ih n k hn
      | some ns0 =>
        dsimp only
        simp only [lookupStr, hk, if_false]
        exact ih n k hn

/-- Lookup through the removed diff when the relation is present in the new map. -/
theorem lookupStr_computeRemoved_some : ∀ (c n : LinkMap) (k : String) (ns : List String),
    lookupStr n k = some ns →
    lookupStr (computeRemoved c n) k =
      (lookupStr c k).map (fun v => v.filter (fun t => t ∉ ns)) := by
  intro c
  induction c with
  | nil => intro n k ns _; rfl
  | cons e rest ih =>
    intro n k ns hn
    obtain ⟨r0, l0⟩ := e
    rw [computeRemoved_cons]
    by_cases hk : r0 = k
    · subst hk
      rw [hn]
      dsimp only
      simp [lookupStr]
    · cases hm : lookupStr n r0 with
      | none =>
        dsimp only
        simp only [lookupStr, hk, if_false]
        exact ih n k ns hn
      | some ns0 =>
        dsimp only
        simp only [lookupStr, hk, if_false]
        exact ih n k ns hn

/-- The removed diff keeps the old key list. -/
theorem computeRemoved_keys (c n : LinkMap) :
    (computeRemoved c n).map Prod.fst = c.map Prod.fst := by
  induction c with
  | nil => rfl
  | cons e rest ih =>
    rw [computeRemoved_cons, List.map_cons, List.map_cons, ih]
    cases hm : lookupStr n e.1 with
    | none => rfl
    | some ns => rfl

/-- The removed diff preserves duplicate-freeness of every list. -/
theorem computeRemoved_nodup (c n : LinkMap)
    (hl : ∀ e ∈ c, (e : String × List String).2.Nodup) :
    ∀ e ∈ computeRemoved c n, (e : String × List String).2.Nodup := by
  intro e' he'
  unfold computeRemoved at he'
  rcases List.mem_map.mp he' with ⟨e, he, hge⟩
  cases hm : lookupStr n e.1 with
  | none =>
    rw [hm] at hge
    dsimp only at hge
    rw [← hge]
    exact hl e he
  | some ns =>
    rw [hm] at hge
    dsimp only at hge
    rw [← hge]
    exact (hl e he).filter _

/-- Removed pairs are duplicate-free for a well-formed outlink map. -/
theorem relPairs_computeRemoved_nodup (c n : LinkMap) (hk : (c.map Prod.fst).Nodup)
    (hl : ∀ e ∈ c, (e : String × List String).2.Nodup) :
    (relPairs (computeRemoved c n)).Nodup :=
  relPairs_nodup _ (by rw [computeRemoved_keys]; exact hk) (computeRemoved_nodup c n hl)

/-- A recorded membership determines a successful lookup. -/
theorem relAt_lookup {m : LinkMap} {r x : String} (h : x ∈ relAt m r) :
    ∃ l, lookupStr m r = some l ∧ x ∈ l := by
  unfold relAt at h
  cases hm : lookupStr m r with
  | none => rw [hm] at h; exact absurd h (by simp)
  | some l => rw [hm] at h; exact ⟨l, rfl, by simpa using h⟩

/-- A pair of the removed diff is a currently recorded outbound edge. -/
theorem relPairs_computeRemoved_sub (c n : LinkMap) (hk : (c.map Prod.fst).Nodup)
    {p : String × String} (hp : p ∈ relPairs (computeRemoved c n)) :
    p.2 ∈ relAt c p.1 := by
  obtain ⟨r, t⟩ := p
  rcases mem_relPairs.mp hp with ⟨l, hl, ht⟩
  have hkeys2 : ((computeRemoved c n).map Prod.fst).Nodup := by
    rw [computeRemoved_keys]
    exact hk
  have hlk : lookupStr (computeRemoved c n) r = some l :=
    lookupStr_of_mem_nodup _ _ _ hkeys2 hl
  cases hm : lookupStr n r with
  | none =>
    rw [lookupStr_computeRemoved_none c n r hm] at hlk
    unfold relAt
    rw [hlk]
    simpa using ht
  | some ns =>
    rw [lookupStr_computeRemoved_some c n r ns hm] at hlk
    cases hcr : lookupStr c r with
    | none => rw [hcr] at hlk; exact Option.noConfusion hlk
    | some v =>
      rw [hcr, Option.map_some'] at hlk
      injection hlk with hlk
      unfold relAt
      rw [hcr]
      have hmem : t ∈ v.filter (fun t => t ∉ ns) := by rw [hlk]; exact ht
      simpa using List.mem_of_mem_filter hmem

/-- A new edge never appears among the removed pairs. -/
theorem not_mem_relPairs_computeRemoved (c n : LinkMap) (hk : (c.map Prod.fst).Nodup)
    {r b : String} (hb : b ∈ relAt n r) : (r, b) ∉ relPairs (computeRemoved c n) := by
  intro hp
  rcases mem_relPairs.mp hp with ⟨l, hl, ht⟩
  have hkeys2 : ((computeRemoved c n).map Prod.fst).Nodup := by
    rw [computeRemoved_keys]
    exact hk
  have hlk : lookupStr (computeRemoved c n) r = some l :=
    lookupStr_of_mem_nodup _ _ _ hkeys2 hl
  rcases relAt_lookup hb with ⟨ns, hm, hbn⟩
  rw [lookupStr_computeRemoved_some c n r ns hm] at hlk
  cases hcr : lookupStr c r with
  | none => rw [hcr] at hlk; exact Option.noConfusion hlk
  | some v =>
    rw [hcr, Option.map_some'] at hlk
    injection hlk with hlk
    have hbt : b ∈ v.filter (fun t => t ∉ ns) := by rw [hlk]; exact ht
    have hno := List.of_mem_filter hbt
    simp at hno
    exact hno hbn

/-- Every new edge is either an added pair or an already-recorded edge. -/
theorem computeAdded_cases (n c : LinkMap) {r b : String} (hb : b ∈ relAt n r) :
    (r, b) ∈ relPairs (computeAdded n c) ∨ b ∈ relAt c r := by
  rcases relAt_lookup hb with ⟨ns, hm, hbn⟩
  cases hc : lookupStr c r with
  | none =>
    left
    apply mem_relPairs_of_relAt
    unfold relAt
    rw [lookupStr_computeAdded_none n c r hc, hm]
    simpa using hbn
  | some cs =>
    by_cases hbc : b ∈ cs
    · right
      unfold relAt
      rw [hc]
      simpa using hbc
    · left
      apply mem_relPairs_of_relAt
      unfold relAt
      rw [lookupStr_computeAdded_some n c r cs hc, hm, Option.map_some']
      simp only [Option.getD_some]
      exact List.mem_filter.mpr ⟨hbn, by simp [hbc]⟩

/-- A successful `resM` chain factors through a successful first stage. -/
theorem resM_some_ok {α β : Type} {x : Option (Except WikiErr α)}
    {f : α → Option (Except WikiErr β)} {b : β}
    (h : resM x f = some (Except.ok b)) :
    ∃ a, x = some (Except.ok a) ∧ f a = some (Except.ok b) := by
  cases x with
  | none => simp [resM] at h
  | some e =>
    cases e with
    | error err => simp [resM] at h
    | ok a => exact ⟨a, rfl, h⟩

/-- One step of the added-links half, with the fetched title resolved. -/
theorem addFold_cons (env : Env) (fuel : Nat) (st : String) (s : Store)
    (r1 t1 : String) (rest : List (String × String))
    (henv : ∀ b, (env.parseMetadata b).redirect = none) (hwf : StoreWF s) :
    addInlinksFold env fuel st s ((r1, t1) :: rest) =
      addInlinksFold env fuel st
        (cacheDelPage (putPage s { getByTitle s t1 with
          inlinks := addInoutLink (getByTitle s t1).inlinks st r1 }) t1) rest := by
  have hstep : addInlinksFold env fuel st s ((r1, t1) :: rest) =
      addInlinksFold env fuel st
        (cacheDelPage (putPage s { getByTitle s t1 with
          inlinks := addInoutLink (getByTitle s t1).inlinks st r1 })
          ((getByTitle s t1).title)) rest := by
    conv_lhs => unfold addInlinksFold
    rw [getByTitleFollow_eq env s t1 fuel henv]
    rfl
  rw [hstep, getByTitle_title t1 hwf]

/-- One step of the removed-links half, with the fetched title resolved. -/
theorem remFold_cons (env : Env) (fuel : Nat) (st : String) (s : Store) (d : Bool)
    (r1 t1 : String) (rest : List (String × String))
    (henv : ∀ b, (env.parseMetadata b).redirect = none) (hwf : StoreWF s) :
    remInlinksFold env fuel st s d ((r1, t1) :: rest) =
      if (delInoutLink (getByTitle s t1).inlinks st (some r1)).length = 0 ∧
         (getByTitle s t1).revision = 0 ∧ hasPage s t1 = true
      then remInlinksFold env fuel st (delPage s t1) true rest
      else remInlinksFold env fuel st
        (cacheDelPage (putPage s { getByTitle s t1 with
          inlinks := delInoutLink (getByTitle s t1).inlinks st (some r1) }) t1) d rest := by
  have hstep : remInlinksFold env fuel st s d ((r1, t1) :: rest) =
      if (delInoutLink (getByTitle s t1).inlinks st (some r1)).length = 0 ∧
         (getByTitle s t1).revision = 0 ∧ hasPage s ((getByTitle s t1).title) = true
      then remInlinksFold env fuel st (delPage s ((getByTitle s t1).title)) true rest
      else remInlinksFold env fuel st
        (cacheDelPage (putPage s { getByTitle s t1 with
          inlinks := delInoutLink (getByTitle s t1).inlinks st (some r1) })
          ((getByTitle s t1).title)) d rest := by
    conv_lhs => unfold remInlinksFold
    rw [getByTitleFollow_eq env s t1 fuel henv]
    rfl
  rw [hstep, getByTitle_title t1 hwf]

/-- Inbound links after a single page write, keyed by the touched title. -/
theorem step_inlinksAt (s : Store) (il : LinkMap) (t1 : String) (hwf : StoreWF s)
    (b r : String) :
    inlinksAt (cacheDelPage (putPage s { getByTitle s t1 with inlinks := il }) t1) b r =
      if b = t1 then relAt il r else inlinksAt s b r := by
  unfold inlinksAt
  rw [getByTitle_cacheDelPage]
  by_cases hbt : b = t1
  · rw [if_pos hbt]
    subst hbt
    rw [getByTitle_putPage_of s { getByTitle s b with inlinks := il } b
      (getByTitle_title b hwf)]
  · rw [if_neg hbt]
    rw [getByTitle_putPage_ne s { getByTitle s t1 with inlinks := il } b
      (show b ≠ (getByTitle s t1).title by rw [getByTitle_title t1 hwf]; exact hbt)]

/-- Once the removal pass has deleted a page, the deletion flag stays set. -/
theorem remFold_flag (env : Env) (fuel : Nat) (st : String)
    (henv : ∀ b, (env.parseMetadata b).redirect = none) :
    ∀ (pairs : List (String × String)) (s s' : Store) (b : Bool),
    remInlinksFold env fuel st s true pairs = some (Except.ok (s', b)) → b = true := by
  intro pairs
  induction pairs with
  | nil =>
    intro s s' b h
    unfold remInlinksFold at h
    injection h with h
    injection h with h
    injection h with h1 h2
    exact h2.symm
  | cons p rest ih =>
    intro s s' b h
    obtain ⟨r1, t1⟩ := p
    unfold remInlinksFold at h
    rw [getByTitleFollow_eq env s t1 fuel henv] at h
    simp only [resM] at h
    split at h
    · exact ih _ _ _ h
    · exact ih _ _ _ h

/-- The removal pass keeps the store title-keyed. -/
theorem remFold_wf (env : Env) (fuel : Nat) (st : String)
    (henv : ∀ b, (env.parseMetadata b).redirect = none) :
    ∀ (pairs : List (String × String)) (s s' : Store) (d b : Bool),
    StoreWF s →
    remInlinksFold env fuel st s d pairs = some (Except.ok (s', b)) → StoreWF s' := by
  intro pairs
  induction pairs with
  | nil =>
    intro s s' d b hwf h
    unfold remInlinksFold at h
    injection h with h
    injection h with h
    injection h with h1 h2
    rw [← h1]
    exact hwf
  | cons p rest ih =>
    intro s s' d b hwf h
    obtain ⟨r1, t1⟩ := p
    unfold remInlinksFold at h
    rw [getByTitleFollow_eq env s t1 fuel henv] at h
    simp only [resM] at h
    split at h
    · exact ih _ _ _ _ (wf_delPage _ hwf) h
    · exact ih _ _ _ _ (wf_cacheDelPage _ (wf_putPage _ hwf)) h

/-- The added-links pass: it keeps the store title-keyed, never removes an
inbound edge, and records every processed pair. -/
theorem addFold_spec (env : Env) (fuel : Nat) (st : String)
    (henv : ∀ b, (env.parseMetadata b).redirect = none) :
    ∀ (pairs : List (String × String)) (s s1 : Store),
    StoreWF s →
    addInlinksFold env fuel st s pairs = some (Except.ok s1) →
    StoreWF s1 ∧
    (∀ b r, st ∈ inlinksAt s b r → st ∈ inlinksAt s1 b r) ∧
    (∀ p ∈ pairs, st ∈ inlinksAt s1 (p : String × String).2 p.1) := by
  intro pairs
  induction pairs with
  | nil =>
    intro s s1 hwf h
    unfold addInlinksFold at h
    injection h with h
    injection h with h
    subst h
    exact ⟨hwf, fun b r hh => hh, fun p hp => absurd hp (List.not_mem_nil p)⟩
  | cons p rest ih =>
    intro s s1 hwf h
    obtain ⟨r1, t1⟩ := p
    rw [addFold_cons env fuel st s r1 t1 rest henv hwf] at h
    have hwf2 : StoreWF (cacheDelPage (putPage s { getByTitle s t1 with
        inlinks := addInoutLink (getByTitle s t1).inlinks st r1 }) t1) :=
      wf_cacheDelPage _ (wf_putPage _ hwf)
    obtain ⟨hwf1, hmono, hest⟩ := ih _ s1 hwf2 h
    have hstep : ∀ b r, st ∈ inlinksAt s b r →
        st ∈ inlinksAt (cacheDelPage (putPage s { getByTitle s t1 with
          inlinks := addInoutLink (getByTitle s t1).inlinks st r1 }) t1) b r := by
      intro b r hb
      rw [step_inlinksAt s (addInoutLink (getByTitle s t1).inlinks st r1) t1 hwf b r]
      by_cases hbt : b = t1
      · rw [if_pos hbt]
        subst hbt
        exact mem_relAt_addInoutLink_mono _ st r1 r st hb
      · rw [if_neg hbt]
        exact hb
    refine ⟨hwf1, fun b r hb => hmono b r (hstep b r hb), ?_⟩
    intro q hq
    rcases List.mem_cons.mp hq with hq | hq
    · subst hq
      apply hmono
      rw [step_inlinksAt s (addInoutLink (getByTitle s t1).inlinks st r1) t1 hwf t1 r1]
      rw [if_pos rfl]
      exact mem_relAt_addInoutLink_self _ st r1
    · exact hest q hq

/-- The removal pass leaves untouched any inbound edge that is not among the
pending removal pairs, when every pending pair is itself recorded. -/
theorem remFold_keep (env : Env) (fuel : Nat) (st B rel : String)
    (henv : ∀ b, (env.parseMetadata b).redirect = none) (hB : B ≠ st) :
    ∀ (pairs : List (String × String)) (s s' : Store),
    StoreWF s →
    pairs.Nodup →
    (∀ p ∈ pairs, (p : String × String).2 ≠ st → st ∈ inlinksAt s p.2 p.1) →
    (rel, B) ∉ pairs →
    st ∈ inlinksAt s B rel →
    remInlinksFold env fuel st s false pairs = some (Except.ok (s', false)) →
    st ∈ inlinksAt s' B rel := by
  intro pairs
  induction pairs with
  | nil =>
    intro s s' hwf _ _ _ hgoal h
    unfold remInlinksFold at h
    injection h with h
    injection h with h
    injection h with h1 h2
    rw [← h1]
    exact hgoal
  | cons p rest ih =>
    intro s s' hwf hnd hpend hnot hgoal h
    obtain ⟨r1, t1⟩ := p
    rw [remFold_cons env fuel st s false r1 t1 rest henv hwf] at h
    split at h
    · exact absurd (remFold_flag env fuel st henv rest _ _ _ h) Bool.false_ne_true
    · refine ih _ s' (wf_cacheDelPage _ (wf_putPage _ hwf)) (List.nodup_cons.mp hnd).2
        ?_ (fun hr => hnot (List.mem_cons_of_mem _ hr)) ?_ h
      · intro q hq hqs
        rw [step_inlinksAt s (delInoutLink (getByTitle s t1).inlinks st (some r1)) t1 hwf
          q.2 q.1]
        by_cases hqt : q.2 = t1
        · rw [if_pos hqt]
          have ht1s : t1 ≠ st := by rw [← hqt]; exact hqs
          have hhead : st ∈ inlinksAt s t1 r1 :=
            hpend (r1, t1) (List.mem_cons_self ..) ht1s
          rcases relAt_lookup hhead with ⟨l, hl, _⟩
          have hq1 : q.1 ≠ r1 := by
            intro hq1
            apply (List.nodup_cons.mp hnd).1
            have : ((r1, t1) : String × String) = q := by rw [← hq1, ← hqt]
            rw [this]
            exact hq
          rw [relAt_delInoutLink_present_ne _ st r1 l q.1 hl hq1]
          have := hpend q (List.mem_cons_of_mem _ hq) hqs
          unfold inlinksAt at this
          rw [hqt] at this
          exact this
        · rw [if_neg hqt]
          exact hpend q (List.mem_cons_of_mem _ hq) hqs
      · rw [step_inlinksAt s (delInoutLink (getByTitle s t1).inlinks st (some r1)) t1 hwf
          B rel]
        by_cases hbt : B = t1
        · rw [if_pos hbt]
          have ht1s : t1 ≠ st := by rw [← hbt]; exact hB
          have hhead : st ∈ inlinksAt s t1 r1 :=
            hpend (r1, t1) (List.mem_cons_self ..) ht1s
          rcases relAt_lookup hhead with ⟨l, hl, _⟩
          have hrel : rel ≠ r1 := by
            intro hre
            exact hnot (by rw [hre, hbt]; exact List.mem_cons_self ..)
          rw [relAt_delInoutLink_present_ne _ st r1 l rel hl hrel]
          have := hgoal
          unfold inlinksAt at this
          rw [hbt] at this
          exact this
        · rw [if_neg hbt]
          exact hgoal

/-- Deleting under a relation that is not a key falls back to erasing
everywhere. -/
theorem delInoutLink_absent (m : LinkMap) (x r1 : String)
    (h : lookupStr m r1 = none) : delInoutLink m x (some r1) = eraseTitleAll m x := by
  unfold delInoutLink
  dsimp only
  rw [h]

/-- The fetched page after a single page write, keyed by the touched title. -/
theorem step_getByTitle (s : Store) (il : LinkMap) (t1 : String) (hwf : StoreWF s)
    (b : String) :
    getByTitle (cacheDelPage (putPage s { getByTitle s t1 with inlinks := il }) t1) b =
      if b = t1 then { getByTitle s t1 with inlinks := il } else getByTitle s b := by
  rw [getByTitle_cacheDelPage]
  by_cases hbt : b = t1
  · rw [if_pos hbt]
    subst hbt
    exact getByTitle_putPage_of s _ b (getByTitle_title b hwf)
  · rw [if_neg hbt]
    exact getByTitle_putPage_ne s _ b
      (show b ≠ (getByTitle s t1).title by rw [getByTitle_title t1 hwf]; exact hbt)

/-- When every recorded inbound edge of the source is a pending removal pair,
the removal pass erases them all. -/
theorem remFold_all (env : Env) (fuel : Nat) (st : String)
    (henv : ∀ b, (env.parseMetadata b).redirect = none) :
    ∀ (pairs : List (String × String)) (s s' : Store),
    StoreWF s →
    pairs.Nodup →
    (∀ b, ∀ e ∈ (getByTitle s b).inlinks, (e : String × List String).2.Nodup) →
    (∀ b r, st ∈ inlinksAt s b r → (r, b) ∈ pairs) →
    remInlinksFold env fuel st s false pairs = some (Except.ok (s', false)) →
    ∀ b r, st ∉ inlinksAt s' b r := by
  intro pairs
  induction pairs with
  | nil =>
    intro s s' hwf _ _ hcov h b r hmem
    unfold remInlinksFold at h
    injection h with h
    injection h with h
    injection h with h1 h2
    rw [← h1] at hmem
    exact absurd (hcov b r hmem) (List.not_mem_nil _)
  | cons p rest ih =>
    intro s s' hwf hnd hinl hcov h
    obtain ⟨r1, t1⟩ := p
    rw [remFold_cons env fuel st s false r1 t1 rest henv hwf] at h
    split at h
    · exact absurd (remFold_flag env fuel st henv rest _ _ _ h) Bool.false_ne_true
    · refine ih _ s' (wf_cacheDelPage _ (wf_putPage _ hwf)) (List.nodup_cons.mp hnd).2
        ?_ ?_ h
      · intro b e he
        rw [step_getByTitle s (delInoutLink (getByTitle s t1).inlinks st (some r1)) t1 hwf
          b] at he
        by_cases hbt : b = t1
        · rw [if_pos hbt] at he
          exact nodup_delInoutLink (getByTitle s t1).inlinks st (some r1) (hinl t1) e he
        · rw [if_neg hbt] at he
          exact hinl b e he
      · intro b r hmem
        rw [step_inlinksAt s (delInoutLink (getByTitle s t1).inlinks st (some r1)) t1 hwf
          b r] at hmem
        by_cases hbt : b = t1
        · rw [if_pos hbt] at hmem
          cases hl : lookupStr (getByTitle s t1).inlinks r1 with
          | none =>
            rw [delInoutLink_absent _ _ _ hl] at hmem
            exact absurd hmem (not_mem_eraseTitleAll (getByTitle s t1).inlinks st r (hinl t1))
          | some l =>
            by_cases hr1 : r = r1
            · subst hr1
              rw [relAt_delInoutLink_present_same _ st r l hl] at hmem
              have hlnd : l.Nodup := hinl t1 (r, l) (lookupStr_mem _ _ _ hl)
              exact absurd hmem hlnd.not_mem_erase
            · rw [relAt_delInoutLink_present_ne _ st r1 l r hl hr1] at hmem
              have hm2 : st ∈ inlinksAt s t1 r := hmem
              have := hcov t1 r hm2
              rcases List.mem_cons.mp this with hh | hh
              · have hr1' : r = r1 := by injection hh
                exact absurd hr1' hr1
              · rw [← hbt] at hh
                exact hh
        · rw [if_neg hbt] at hmem
          have := hcov b r hmem
          rcases List.mem_cons.mp this with hh | hh
          · have hb2 : b = t1 := by injection hh
            exact absurd hb2 hbt
          · exact hh

/-- Membership through per-relation sorting of an outlink map. -/
theorem mem_relAt_mapSort {m : LinkMap} {r b : String} :
    b ∈ relAt (m.map (fun e => (e.1, sortStrings e.2))) r ↔ b ∈ relAt m r := by
  induction m with
  | nil => exact Iff.rfl
  | cons e rest ih =>
    obtain ⟨r0, l0⟩ := e
    by_cases hk : r0 = r
    · subst hk
      unfold relAt
      simp only [List.map_cons, lookupStr, if_pos rfl, Option.getD_some]
      exact mem_sortStrings
    · unfold relAt
      simp only [List.map_cons, lookupStr, hk, if_false]
      exact ih

/-- A successful inlink update factors through its two passes, with no page
deletion. -/
theorem updateInlinks_inv (env : Env) (fuel : Nat) (s : Store) (st : String)
    (a r : LinkMap) (s2 : Store)
    (h : updateInlinks env fuel s st a r = some (Except.ok s2)) :
    ∃ s1, addInlinksFold env fuel st s (relPairs a) = some (Except.ok s1) ∧
      remInlinksFold env fuel st s1 false (relPairs r) = some (Except.ok (s2, false)) := by
  unfold updateInlinks at h
  rcases resM_some_ok h with ⟨s1, ha, h2⟩
  rcases resM_some_ok h2 with ⟨q, hr, h3⟩
  obtain ⟨sq, bq⟩ := q
  cases bq with
  | true => simp at h3
  | false =>
    simp at h3
    subst h3
    exact ⟨s1, ha, hr⟩

/-- C3: after `update_links` completes for page A (no redirect metadata
anywhere, unchanged redirect arguments, a title-keyed store whose outlink
table for A and all inlink tables are duplicate-free, and the inbound-edge
mirror invariant holding on entry), every outbound edge A --rel--> B with
B ≠ A of the updated page is mirrored as `B.inlinks[rel] ∋ A` when A carries
no read restriction; and when A carries a read restriction no page — in
particular no target of A's outlinks — records an inbound edge from A. -/
theorem C3_mirror (env : Env) (s : Store) (A : String) (rd : Option String)
    (fuel : Nat) (s2 : Store)
    (henv : ∀ b, (env.parseMetadata b).redirect = none)
    (hwf : StoreWF s)
    (hkeys : ((getByTitle s A).outlinks.map Prod.fst).Nodup)
    (hlists : ∀ e ∈ (getByTitle s A).outlinks, (e : String × List String).2.Nodup)
    (hinl : ∀ b, ∀ e ∈ (getByTitle s b).inlinks, (e : String × List String).2.Nodup)
    (hm1 : (getByTitle s A).acl_read = "" →
      ∀ r b, b ∈ relAt (getByTitle s A).outlinks r → b ≠ A → A ∈ inlinksAt s b r)
    (hm2 : (getByTitle s A).acl_read ≠ "" →
      ∀ b r, A ∈ inlinksAt s b r → b ∈ relAt (getByTitle s A).outlinks r)
    (hrun : updateLinks env s A rd rd fuel = some (Except.ok s2)) :
    ((getByTitle s A).acl_read = "" →
      ∀ r b, b ∈ relAt (getByTitle s2 A).outlinks r → b ≠ A → A ∈ inlinksAt s2 b r) ∧
    ((getByTitle s A).acl_read ≠ "" →
      ∀ r b, b ∈ relAt (getByTitle s2 A).outlinks r → A ∉ inlinksAt s2 b r) := by
  unfold updateLinks at hrun
  rw [show updateRedirectedLinks env s A rd rd fuel = some (Except.ok s) from by
    unfold updateRedirectedLinks; rw [if_pos rfl]] at hrun
  simp only [resM] at hrun
  rw [resolveOutlinks_eq env fuel s henv hwf] at hrun
  simp only [resM] at hrun
  set NOUT := (env.parseOutlinks (getByTitle s A)).map (fun e => (e.1, e.2.dedup)) with hNOUT
  rcases resM_some_ok hrun with ⟨s2', hu, hf⟩
  injection hf with hf
  injection hf with hf
  rcases updateInlinks_inv env fuel s A _ _ s2' hu with ⟨s1, hadd, hrem⟩
  obtain ⟨hwf1, hmono, hest⟩ := addFold_spec env fuel A henv _ s s1 hwf hadd
  have hwf2 : StoreWF s2' := remFold_wf env fuel A henv _ s1 s2' false false hwf1 hrem
  set SELF2 : Page := { getByTitle s2' A with
    outlinks := NOUT.map (fun e => (e.1, sortStrings e.2)) } with hS2
  have htitle2 : SELF2.title = A := by
    rw [hS2]
    exact getByTitle_title A hwf2
  have hA2 : getByTitle s2 A = SELF2 := by
    rw [← hf]
    exact getByTitle_putPage_of s2' SELF2 A htitle2
  have hout2 : (getByTitle s2 A).outlinks = NOUT.map (fun e => (e.1, sortStrings e.2)) := by
    rw [hA2, hS2]
  have hinl2 : ∀ b r, b ≠ A → inlinksAt s2 b r = inlinksAt s2' b r := by
    intro b r hbA
    unfold inlinksAt
    rw [← hf, getByTitle_putPage_ne s2' SELF2 b (by rw [htitle2]; exact hbA)]
  have hinlA : ∀ r, inlinksAt s2 A r = inlinksAt s2' A r := by
    intro r
    unfold inlinksAt
    rw [hA2, hS2]
  by_cases hacl : (getByTitle s A).acl_read = ""
  · -- unrestricted: the mirror is (re-)established
    refine ⟨fun _ r b hbO hbA => ?_, fun hacl2 => absurd hacl hacl2⟩
    rw [if_neg (by simp [hacl])] at hest hrem
    dsimp only at hest hrem
    have hbO2 : b ∈ relAt NOUT r := by
      rw [hout2] at hbO
      exact mem_relAt_mapSort.mp hbO
    have h1 : A ∈ inlinksAt s1 b r := by
      rcases computeAdded_cases NOUT (getByTitle s A).outlinks hbO2 with hc | hc
      · exact hest (r, b) hc
      · exact hmono b r (hm1 hacl r b hc hbA)
    have h2 : A ∈ inlinksAt s2' b r := by
      refine remFold_keep env fuel A b r henv hbA _ s1 s2' hwf1
        (relPairs_computeRemoved_nodup (getByTitle s A).outlinks NOUT hkeys hlists)
        ?_ (not_mem_relPairs_computeRemoved (getByTitle s A).outlinks NOUT hkeys hbO2)
        h1 hrem
      intro p hp hpA
      exact hmono p.2 p.1
        (hm1 hacl p.1 p.2 (relPairs_computeRemoved_sub (getByTitle s A).outlinks NOUT hkeys hp) hpA)
    rw [hinl2 b r hbA]
    exact h2
  · -- read-restricted: every inbound edge from A is erased
    refine ⟨fun hacl2 => absurd hacl2 hacl, fun _ r b hbO => ?_⟩
    rw [if_pos hacl] at hadd hrem
    dsimp only at hadd hrem
    have hs1 : s1 = s := by
      rw [show relPairs ([] : LinkMap) = [] from rfl] at hadd
      unfold addInlinksFold at hadd
      injection hadd with hadd
      injection hadd with hadd
      exact hadd.symm
    rw [hs1] at hrem
    have hall : ∀ b r, A ∉ inlinksAt s2' b r := by
      refine remFold_all env fuel A henv _ s s2' hwf
        (relPairs_nodup (getByTitle s A).outlinks hkeys hlists) hinl ?_ hrem
      intro b r hm
      exact mem_relPairs_of_relAt (hm2 hacl b r hm)
    by_cases hbA : b = A
    · rw [hbA, hinlA r]
      exact hall A r
    · rw [hinl2 b r hbA]
      exact hall b r

theorem C3_mirror_witness :
    ∃ s2, updateLinks linkEnv storeL "A" none none 1 = some (Except.ok s2) ∧
      (((getByTitle storeL "A").acl_read = "" →
        ∀ r b, b ∈ relAt (getByTitle s2 "A").outlinks r → b ≠ "A" →
          ("A" : String) ∈ inlinksAt s2 b r) ∧
       ((getByTitle storeL "A").acl_read ≠ "" →
        ∀ r b, b ∈ relAt (getByTitle s2 "A").outlinks r →
          ("A" : String) ∉ inlinksAt s2 b r)) := by
  have hex : ∃ s2, updateLinks linkEnv storeL "A" none none 1 = some (Except.ok s2) :=
    ⟨_, rfl⟩
  rcases hex with ⟨s2v, hres⟩
  refine ⟨s2v, hres, C3_mirror linkEnv storeL "A" none 1 s2v (fun b => rfl) ?_ ?_ ?_ ?_ ?_ ?_ hres⟩
  · intro e he
    rcases List.mem_cons.mp he with h | h
    · rw [h]
      rfl
    · exact absurd h (List.not_mem_nil e)
  · exact List.nodup_nil
  · intro e he
    exact absurd he (List.not_mem_nil e)
  · intro b e he
    by_cases hb : b = "A"
    · subst hb
      exact absurd he (List.not_mem_nil e)
    · have hab : ¬(("A" : String) = b) := fun h => hb h.symm
      have hlk : lookupStr storeL.pages b = none := by
        show lookupStr [("A", ({ defaultPage "A" with revision := 1 } : Page))] b = none
        simp only [lookupStr, hab, if_false]
      have hl : (getByTitle storeL b).inlinks = [] := by
        unfold getByTitle
        rw [hlk]
        rfl
      rw [hl] at he
      exact absurd he (List.not_mem_nil e)
  · intro _ r b hb _
    exact absurd hb (List.not_mem_nil b)
  · intro h
    exact absurd rfl h

end Wiki
